import Mathlib

/-
Verification of the text-transformation core of the vtt_to_srt converter.

The repository holds two near-duplicate implementations of a WebVTT → SubRip
converter (src/vtt_to_srt/vtt_to_srt.py and src/vtt_to_srt2/vtt_to_srt_2.py).
Their cores are regex rewrites over the whole file contents.  We embed a
Python string as its list of characters and give each `re.sub` / `re.match`
call of the source a dedicated total matcher whose structure mirrors the
pattern text; greedy repetition with backtracking is modelled by producing
the candidate continuations in the order the `re` module explores them and
keeping the first full success.

Notes on the character classes: the source uses Python's `\d` and `\w` on
`str`, which also match non-ASCII decimal digits and word characters.  The
embedding uses the ASCII fragment; every claim below only concerns ASCII
documents.
-/

namespace VttToSrt

/-- A Python `str` is modelled as its list of characters. -/
abbrev Str := List Char

def ofS (s : String) : Str := s.data

/-- Python regex `\d` (ASCII fragment). -/
def isDigitCh (c : Char) : Bool := c.isDigit

/-- Python regex `\w` (ASCII fragment). -/
def isWordCh (c : Char) : Bool := c.isAlphanum || c = '_'

/-- The class `[ \-\w]` (keys of cue-settings and header values). -/
def keyCh (c : Char) : Bool := c = ' ' || c = '-' || isWordCh c

/-- The class `[\w\%\d:,.]` (values of cue-settings). -/
def valCh (c : Char) : Bool :=
  isWordCh c || c = '%' || isDigitCh c || c = ':' || c = ',' || c = '.'

/-- The regex `.` metacharacter: any character except a newline. -/
def anyCh (c : Char) : Bool := if c = '\n' then false else true

/-- Nondeterministic bind, used to enumerate a pattern's candidate parses in
the order Python's backtracking engine explores them. -/
def altBind : List α → (α → List β) → List β
  | [], _ => []
  | a :: as, f => f a ++ altBind as f

@[simp] theorem altBind_nil (f : α → List β) : altBind [] f = [] := rfl

@[simp] theorem altBind_cons (a : α) (as : List α) (f : α → List β) :
    altBind (a :: as) f = f a ++ altBind as f := rfl

/-- Match `\d\d:`, the colon-terminated pair of digits of a time field. -/
def ddColon : Str → Option (Str × Str)
  | a :: b :: c :: r =>
    if isDigitCh a then
      if isDigitCh b then
        if c = ':' then some ([a, b, c], r) else none
      else none
    else none
  | _ => none

/-- Match `(?:\d\d:){k}` for an exact repetition count `k`. -/
def ddColonN : Nat → Str → Option (Str × Str)
  | 0, s => some ([], s)
  | k + 1, s =>
    match ddColon s with
    | none => none
    | some (t, r) =>
      match ddColonN k r with
      | none => none
      | some (t2, r2) => some (t ++ t2, r2)

/-- Match `\d\d`, the trailing seconds pair of a time field. -/
def twoDigits : Str → Option (Str × Str)
  | a :: b :: r =>
    if isDigitCh a then
      if isDigitCh b then some ([a, b], r) else none
    else none
  | _ => none

/-- Candidate parses of `(?:\d\d:){lo,hi}\d\d`.  The greedy engine tries the
repetition counts from `hi` down to `lo`; `ks` lists them in that order
(e.g. `[2, 1, 0]` for `{0,2}`, `[1]` for `{1}`, `[0]` for `{0}`). -/
def timeAlts (ks : List Nat) (s : Str) : List (Str × Str) :=
  ks.filterMap fun k =>
    match ddColonN k s with
    | none => none
    | some (t, r) =>
      match twoDigits r with
      | none => none
      | some (t2, r2) => some (t ++ t2, r2)

/-- Take exactly `k` digits. -/
def takeDigits : Nat → Str → Option (Str × Str)
  | 0, s => some ([], s)
  | _ + 1, [] => none
  | k + 1, c :: r =>
    if isDigitCh c then
      match takeDigits k r with
      | none => none
      | some (t, r2) => some (c :: t, r2)
    else none

/-- Candidate parses of the milliseconds group `(\d{0,3})`: the greedy engine
tries three digits first, backing off to the empty parse. -/
def msAlts (s : Str) : List (Str × Str) :=
  [3, 2, 1, 0].filterMap fun k => takeDigits k s

/-- Match one character of class `p`. -/
def clsOne (p : Char → Bool) : Str → Option (Char × Str)
  | c :: r => if p c then some (c, r) else none
  | [] => none

/-- Match a literal character sequence. -/
def litM : Str → Str → Option Str
  | [], s => some s
  | c :: p, d :: s => if d = c then litM p s else none
  | _ :: _, [] => none

/-- The literal ` --> ` arrow separating the two cue times. -/
def arrowChars : Str := [' ', '-', '-', '>', ' ']

/-- Candidate splits of a greedy `p+`: every nonempty run of `p`-characters
taken off the front, longest first. -/
def clsSplits (p : Char → Bool) : Str → List (Str × Str)
  | [] => []
  | c :: cs =>
    if p c then
      ((clsSplits p cs).map fun t => (c :: t.1, t.2)) ++ [([c], cs)]
    else []

/-- The rests left by one cue-settings token `[ \-\w]+:[\w\%\d:,.]+`,
in the order backtracking explores them. -/
def tokenRests (s : Str) : List Str :=
  altBind (clsSplits keyCh s) fun t =>
    match t.2 with
    | ':' :: r2 => (clsSplits valCh r2).map fun t2 => t2.2
    | _ => []

/-- The rests left by the greedy cue-settings star
`(?:[ \-\w]+:[\w\%\d:,.]+)*`, deepest iteration first (the greedy order).
Each token consumes at least three characters, so a fuel equal to the input
length never runs out. -/
def starRests : Nat → Str → List Str
  | 0, s => [s]
  | fuel + 1, s => (altBind (tokenRests s) fun r => starRests fuel r) ++ [s]

/-- A timestamp-pair pattern
`$a$sep$b --> $a$sep$b(?:[ \-\w]+:[\w\%\d:,.]+)*\n` where `$a` is
`(?:\d\d:){lo,hi}\d\d` (represented by the count list `ks`),
`$sep` is the millisecond separator and `$b` is `(\d{0,3})`. -/
structure TsPat where
  ks : List Nat
  sep : Char → Bool

/-- The four captured groups of a timestamp-pair pattern. -/
structure TsGroups where
  t1 : Str
  ms1 : Str
  t2 : Str
  ms2 : Str

/-- Try the timestamp-pair pattern anchored at the start of `s`; return the
captured groups and the rest after the match, following the backtracking
order of the `re` module (so the result is the parse `re` commits to). -/
def matchTsAt (p : TsPat) (s : Str) : Option (TsGroups × Str) :=
  (altBind (timeAlts p.ks s) fun g1 =>
    match clsOne p.sep g1.2 with
    | none => []
    | some (_, r2) =>
      altBind (msAlts r2) fun g2 =>
        match litM arrowChars g2.2 with
        | none => []
        | some r3 =>
          altBind (timeAlts p.ks r3) fun g3 =>
            match clsOne p.sep g3.2 with
            | none => []
            | some (_, r4) =>
              altBind (msAlts r4) fun g4 =>
                altBind (starRests g4.2.length g4.2) fun r5 =>
                  match r5 with
                  | '\n' :: r6 => [(⟨g1.1, g2.1, g3.1, g4.1⟩, r6)]
                  | _ => []).head?

/-- The scanning loop of `re.sub` for a timestamp-pair pattern: at each
position try the pattern; on a match emit the replacement and continue after
the match, otherwise keep the character.  Every match consumes at least its
final newline, so a fuel equal to the input length never runs out. -/
def subTsGo (p : TsPat) (repl : TsGroups → Str) : Nat → Str → Str
  | _, [] => []
  | 0, s => s
  | fuel + 1, c :: cs =>
    match matchTsAt p (c :: cs) with
    | some (g, rest) => repl g ++ subTsGo p repl fuel rest
    | none => c :: subTsGo p repl fuel cs

/-- `re.sub(pattern, repl, s)` for a timestamp-pair pattern. -/
def subTs (p : TsPat) (repl : TsGroups → Str) (s : Str) : Str :=
  subTsGo p repl s.length s

/-- The pattern of `convert_timestamp`:
`((?:\d\d:){0,2}\d\d).(\d{0,3}) --> ((?:\d\d:){0,2}\d\d).(\d{0,3})…\n`
(note the unescaped dot: it matches any character but a newline). -/
def vttPat : TsPat := ⟨[2, 1, 0], anyCh⟩

/-- The pattern `padding_minute` of `add_padding_to_timestamp`:
`((?:\d\d:){1}\d\d),(\d{0,3}) --> ((?:\d\d:){1}\d\d),(\d{0,3})…\n`. -/
def minutePat : TsPat := ⟨[1], fun c => c = ','⟩

/-- The pattern `padding_second` of `add_padding_to_timestamp`:
`((?:\d\d:){0}\d\d),(\d{0,3}) --> ((?:\d\d:){0}\d\d),(\d{0,3})…\n`. -/
def secondPat : TsPat := ⟨[0], fun c => c = ','⟩

/-- Replacement `\1,\2 --> \3,\4\n` of `convert_timestamp`. -/
def replSwap (g : TsGroups) : Str :=
  g.t1 ++ ',' :: g.ms1 ++ arrowChars ++ g.t2 ++ ',' :: g.ms2 ++ ['\n']

/-- Replacement `00:\1,\2 --> 00:\3,\4\n` of `padding_minute`. -/
def replMinute (g : TsGroups) : Str :=
  '0' :: '0' :: ':' :: g.t1 ++ ',' :: g.ms1 ++ arrowChars ++
    '0' :: '0' :: ':' :: g.t2 ++ ',' :: g.ms2 ++ ['\n']

/-- Replacement `00:00:\1,\2 --> 00:00:\3,\4\n` of `padding_second`. -/
def replSecond (g : TsGroups) : Str :=
  '0' :: '0' :: ':' :: '0' :: '0' :: ':' :: g.t1 ++ ',' :: g.ms1 ++
    arrowChars ++ '0' :: '0' :: ':' :: '0' :: '0' :: ':' :: g.t2 ++ ',' ::
    g.ms2 ++ ['\n']

/-- `VttToStr.add_padding_to_timestamp`: apply the `padding_minute`
substitution, then the `padding_second` substitution. -/
def add_padding_to_timestamp (s : Str) : Str :=
  subTs secondPat replSecond (subTs minutePat replMinute s)

/-- `VttToStr.convert_timestamp`: swap the millisecond separator and strip
cue settings with the `all_timestamp` substitution, then pad. -/
def convert_timestamp (s : Str) : Str :=
  add_padding_to_timestamp (subTs vttPat replSwap s)

/-!  The remaining `re.sub` calls of `convert_content` delete their matches.
Each of those patterns is a sequence of literals, single-character classes
and greedy `+`/`*` runs in which the character following a run is never a
member of the run's class, so backtracking inside a run can never turn a
failure into a success: the greedy, no-backtracking parse below is
equivalent to the `re` module's behaviour on them. -/

/-- One piece of a deletion pattern. -/
inductive PatItem where
  | lit : Str → PatItem
  | one : (Char → Bool) → PatItem
  | plus : (Char → Bool) → PatItem
  | star : (Char → Bool) → PatItem

/-- The greedy run of class `p`: the longest `p`-prefix and the rest. -/
def runCls (p : Char → Bool) : Str → Str × Str
  | [] => ([], [])
  | c :: cs =>
    if p c then
      let t := runCls p cs
      (c :: t.1, t.2)
    else ([], c :: cs)

/-- Match a deletion pattern anchored at the start of `s`, returning the rest
after the match. -/
def matchItems : List PatItem → Str → Option Str
  | [], s => some s
  | PatItem.lit l :: rest, s =>
    match litM l s with
    | none => none
    | some r => matchItems rest r
  | PatItem.one p :: rest, c :: s => if p c then matchItems rest s else none
  | PatItem.one _ :: _, [] => none
  | PatItem.plus p :: rest, s =>
    match runCls p s with
    | ([], _) => none
    | (_ :: _, r) => matchItems rest r
  | PatItem.star p :: rest, s => matchItems rest (runCls p s).2

/-- The scanning loop of `re.sub(pattern, "", s)` for a deletion pattern.
Every pattern used below starts with a literal or a `+` run, so a match
consumes at least one character and a fuel equal to the input length never
runs out. -/
def subItemsGo (items : List PatItem) : Nat → Str → Str
  | _, [] => []
  | 0, s => s
  | fuel + 1, c :: cs =>
    match matchItems items (c :: cs) with
    | some rest => subItemsGo items fuel rest
    | none => c :: subItemsGo items fuel cs

/-- `re.sub(pattern, "", s)` for a deletion pattern. -/
def subItems (items : List PatItem) (s : Str) : Str :=
  subItemsGo items s.length s

/-- Pattern `WEBVTT\n`. -/
def webvttItems : List PatItem := [PatItem.lit (ofS "WEBVTT\n")]

/-- Pattern `Kind:[ \-\w]+\n`. -/
def kindItems : List PatItem :=
  [PatItem.lit (ofS "Kind:"), PatItem.plus keyCh, PatItem.lit ['\n']]

/-- Pattern `Language:[ \-\w]+\n`. -/
def languageItems : List PatItem :=
  [PatItem.lit (ofS "Language:"), PatItem.plus keyCh, PatItem.lit ['\n']]

/-- The class `[.\w\d]` of `<c…>` tag suffixes. -/
def tagCh (c : Char) : Bool := c = '.' || isWordCh c || isDigitCh c

/-- Pattern `<c[.\w\d]*>`. -/
def tagOpenItems : List PatItem :=
  [PatItem.lit (ofS "<c"), PatItem.star tagCh, PatItem.lit ['>']]

/-- Pattern `</c>`. -/
def tagCloseItems : List PatItem := [PatItem.lit (ofS "</c>")]

/-- Pattern `<\d\d:\d\d:\d\d.\d\d\d>` (the dot is unescaped). -/
def karaokeItems : List PatItem :=
  [PatItem.lit ['<'], PatItem.one isDigitCh, PatItem.one isDigitCh,
   PatItem.lit [':'], PatItem.one isDigitCh, PatItem.one isDigitCh,
   PatItem.lit [':'], PatItem.one isDigitCh, PatItem.one isDigitCh,
   PatItem.one anyCh, PatItem.one isDigitCh, PatItem.one isDigitCh,
   PatItem.one isDigitCh, PatItem.lit ['>']]

/-- The class `[\-\w]` (style selector names). -/
def dashWordCh (c : Char) : Bool := c = '-' || isWordCh c

/-- The class `[\-.\w\d]` (style selector arguments). -/
def styleArgCh (c : Char) : Bool := c = '-' || c = '.' || isWordCh c || isDigitCh c

/-- The class `[.,:;\(\) \-\w\d]` (style rule bodies). -/
def styleBodyCh (c : Char) : Bool :=
  c = '.' || c = ',' || c = ':' || c = ';' || c = '(' || c = ')' || c = ' ' ||
    c = '-' || isWordCh c || isDigitCh c

/-- Pattern `::[\-\w]+\([\-.\w\d]+\)[ ]*\x7b[.,:;\(\) \-\w\d]+\n \x7d\n`
(a CSS-like style rule block). -/
def styleBlockItems : List PatItem :=
  [PatItem.lit (ofS "::"), PatItem.plus dashWordCh, PatItem.lit ['('],
   PatItem.plus styleArgCh, PatItem.lit [')'], PatItem.star (fun c => c = ' '),
   PatItem.lit ['\x7b'], PatItem.plus styleBodyCh,
   PatItem.lit ['\n', ' ', '\x7d', '\n']]

/-- Pattern `Style:\n##\n`. -/
def styleMarkItems : List PatItem := [PatItem.lit (ofS "Style:\n##\n")]

/-- `VttToStr.convert_header`: strip `WEBVTT`, `Kind:` and `Language:`
lines, in that order. -/
def convert_header (s : Str) : Str :=
  subItems languageItems (subItems kindItems (subItems webvttItems s))

/-- The five tag/style deletion substitutions of `convert_content`, in
source order. -/
def stripMarkup (s : Str) : Str :=
  subItems styleMarkItems (subItems styleBlockItems (subItems karaokeItems
    (subItems tagCloseItems (subItems tagOpenItems s))))

/-- Python's `s.split(sep)` for a one-character separator: split at every
occurrence, keeping empty pieces (`"".split(sep) == [""]`). -/
def pySplit (sep : Char) : Str → List Str
  | [] => [[]]
  | c :: cs =>
    if c = sep then [] :: pySplit sep cs
    else
      match pySplit sep cs with
      | [] => [[c]]
      | l :: ls => (c :: l) :: ls

/-- Python's `'\n'.join(lines)`. -/
def joinNl : List Str → Str
  | [] => []
  | [l] => l
  | l :: ls => l ++ '\n' :: joinNl ls

/-- `VttToStr.has_timestamp`: `re.match` of
`((\d\d:){2}\d\d),(\d{3}) --> ((\d\d:){2}\d\d),(\d{3})` — an anchored
prefix check (all repetition counts are exact, so no backtracking arises). -/
def has_timestamp (line : Str) : Bool :=
  match ddColonN 2 line with
  | none => false
  | some (_, r1) =>
    match twoDigits r1 with
    | none => false
    | some (_, r2) =>
      match litM [','] r2 with
      | none => false
      | some r3 =>
        match takeDigits 3 r3 with
        | none => false
        | some (_, r4) =>
          match litM arrowChars r4 with
          | none => false
          | some r5 =>
            match ddColonN 2 r5 with
            | none => false
            | some (_, r6) =>
              match twoDigits r6 with
              | none => false
              | some (_, r7) =>
                match litM [','] r7 with
                | none => false
                | some r8 =>
                  match takeDigits 3 r8 with
                  | none => false
                  | some _ => true

/-- `re.match(r"^\d+$", line)`: a nonempty all-digit line. -/
def isNumericLine (line : Str) : Bool :=
  match line with
  | [] => false
  | _ => line.all isDigitCh

/-- `str(i)` for the cue counter. -/
def natStr (n : Nat) : Str := (Nat.repr n).data

/-- The line-level loop of `add_sequence_numbers`: emit the counter before
every line recognized by `has_timestamp`. -/
def addSeqLines (i : Nat) : List Str → List Str
  | [] => []
  | l :: ls =>
    if has_timestamp l then natStr i :: l :: addSeqLines (i + 1) ls
    else l :: addSeqLines i ls

/-- `VttToStr.add_sequence_numbers`: split on newlines, number the timestamp
lines, and append a newline after every emitted line. -/
def add_sequence_numbers (s : Str) : Str :=
  (addSeqLines 1 (pySplit '\n' s)).foldr (fun l acc => l ++ '\n' :: acc) []

/-- The `while` loop of `remove_blank_lines` (second variant).  The flag
records whether `num == 0`, i.e. whether we are still at the very start.
`lines[num + 1]` is the head of the tail; indexing past the end of the list
raises in Python, modelled by `none`.  The branch structure follows the
source: a numeric line followed by a timestamp line is kept as a block
(with a preceding separator when not at the start), a timestamp line starts
a block of its own, anything else is copied. -/
def rbLoop : Bool → List Str → Option (List Str)
  | _, [] => some []
  | first, [l] =>
    if isNumericLine l then none
    else if has_timestamp l then some ((if first then [] else [[]]) ++ [l])
    else some [l]
  | first, l :: l2 :: rest2 =>
    if isNumericLine l then
      if has_timestamp l2 then
        match rbLoop false rest2 with
        | none => none
        | some out =>
          some ((if first then [] else [[]]) ++ l :: l2 :: out)
      else
        match rbLoop false (l2 :: rest2) with
        | none => none
        | some out => some (l :: out)
    else if has_timestamp l then
      match rbLoop false (l2 :: rest2) with
      | none => none
      | some out => some ((if first then [] else [[]]) ++ l :: out)
    else
      match rbLoop false (l2 :: rest2) with
      | none => none
      | some out => some (l :: out)

/-- `VttToStr.remove_blank_lines` (second variant): drop all empty lines,
append an empty sentinel line, run the block-grouping loop, then `pop` the
last element (which raises on an empty list, modelled by `none`) and join. -/
def remove_blank_lines (s : Str) : Option Str :=
  let lines := ((pySplit '\n' s).filter fun x => x ≠ []) ++ [[]]
  match rbLoop true lines with
  | none => none
  | some out => if out = [] then none else some (joinNl out.dropLast)

/-- The loop of `remove_simple_identifiers` (second variant), carrying the
previous line and the output accumulated in reverse.  `lines[i - 1]` is the
previous line for `i ≥ 1` and — Python negative indexing — the last line
when `i = 0`; `out.pop()` on an empty accumulator raises, modelled by
`none`. -/
def rsGo (prev : Str) (racc : List Str) : List Str → Option (List Str)
  | [] => some racc.reverse
  | line :: rest =>
    if has_timestamp line then
      if isNumericLine prev then
        match racc with
        | [] => none
        | _ :: racc2 => rsGo line (line :: racc2) rest
      else rsGo line (line :: racc) rest
    else rsGo line (line :: racc) rest

/-- The line-list core of `remove_simple_identifiers`. -/
def rsiLines (lines : List Str) : Option (List Str) :=
  match lines with
  | [] => some []
  | l0 :: rest => rsGo ((l0 :: rest).getLast (by simp)) [] (l0 :: rest)

/-- `VttToStr.remove_simple_identifiers` (second variant). -/
def remove_simple_identifiers (s : Str) : Option Str :=
  match rsiLines (pySplit '\n' s) with
  | none => none
  | some out => some (joinNl out)

/-- `VttToStr.convert_content` of the first implementation
(src/vtt_to_srt/vtt_to_srt.py): timestamps, header, markup, sequence
numbers. -/
def convert_content (s : Str) : Str :=
  add_sequence_numbers (stripMarkup (convert_header (convert_timestamp s)))

/-- `VttToStr.convert_content` of the second implementation
(src/vtt_to_srt2/vtt_to_srt_2.py): additionally removes blank lines and
stale numeric identifiers before numbering; the list-indexing errors its
helpers can raise surface as `none`. -/
def convert_content_2 (s : Str) : Option Str :=
  match remove_blank_lines (stripMarkup (convert_header (convert_timestamp s))) with
  | none => none
  | some t =>
    match remove_simple_identifiers t with
    | none => none
    | some u => some (add_sequence_numbers u)

/-- Python's `s.replace(pat, rep)`: rewrite every non-overlapping occurrence,
left to right.  `pat` is nonempty in the only use below, so a match consumes
at least one character and a fuel equal to the input length never runs
out. -/
def pyReplaceGo (pat rep : Str) : Nat → Str → Str
  | _, [] => []
  | 0, s => s
  | fuel + 1, c :: cs =>
    if pat.isPrefixOf (c :: cs) then
      rep ++ pyReplaceGo pat rep fuel (List.drop pat.length (c :: cs))
    else c :: pyReplaceGo pat rep fuel cs

/-- Python's `s.replace(pat, rep)`. -/
def pyReplace (pat rep s : Str) : Str := pyReplaceGo pat rep s.length s

/-- The output path computed by `VttToStr.process`:
`filename.replace(".vtt", ".srt")`. -/
def processOutputPath (filename : Str) : Str :=
  pyReplace (ofS ".vtt") (ofS ".srt") filename

/-- One persisted write: target path, written text, encoding used. -/
structure WriteAttempt where
  path : Str
  text : Str
  encoding : Str
deriving DecidableEq

/-- `filename.split(os.sep)[-1]` with the POSIX separator `/`. -/
def basename (filename : Str) : Str := (pySplit '/' filename).getLastD []

/-- The platform default encoding used by `open(filename, "w")` when no
encoding is passed. -/
def defaultEncoding : Str := ofS "locale-default"

/-- The single quote character, written via its code point. -/
def quoteCh : Char := Char.ofNat 39

/-- `str(data.encode(encoding))` for a string of printable ASCII characters
other than the quote and the backslash (the only case exercised below):
Python renders the bytes object as `b'…'`. -/
def pyBytesRepr (data : Str) : Str := 'b' :: quoteCh :: data ++ [quoteCh]

/-- `VttToStr.write_file` of the first implementation.  `fails` is the
file-system oracle: `fails p = true` means opening `p` for writing raises
`IOError`.  The first attempt writes `str(data)` (the identity on a `str`)
at `filename` with the requested encoding; on failure the single retry
writes the same text, with the same encoding, at the base name; a second
failure propagates (`none`). -/
def write_file (fails : Str → Bool) (filename data encoding_format : Str) :
    Option WriteAttempt :=
  if fails filename = false then some ⟨filename, data, encoding_format⟩
  else if fails (basename filename) = false then
    some ⟨basename filename, data, encoding_format⟩
  else none

/-- `VttToStr.write_file` of the second implementation.  The retry opens the
base name with `open(filename, "w")` — the platform default encoding — and
writes `str(data.encode(encoding_format))`, the textual repr of a bytes
object. -/
def write_file_2 (fails : Str → Bool) (filename data encoding_format : Str) :
    Option WriteAttempt :=
  if fails filename = false then some ⟨filename, data, encoding_format⟩
  else if fails (basename filename) = false then
    some ⟨basename filename, pyBytesRepr data, defaultEncoding⟩
  else none

/-!  Specification-side definitions, written from the wording of the claims;
the theorems below compare them with the embedded source functions. -/

/-- The number of lines recognized as timestamp lines. -/
def countTs (ls : List Str) : Nat := (ls.filter fun l => has_timestamp l).length

/-- Insert the given numbers, in order, one immediately before each
recognized timestamp line; all other lines pass through unchanged. -/
def weave : List Str → List Nat → List Str
  | [], _ => []
  | l :: ls, ns =>
    if has_timestamp l then
      match ns with
      | [] => l :: weave ls []
      | n :: ns2 => natStr n :: l :: weave ls ns2
    else l :: weave ls ns

/-- Every recognized timestamp line is immediately preceded by a line that
is exactly the decimal rendering of its 1-based cue index (`k` is the index
of the next cue, `prev` the preceding line, if any). -/
def numberedFrom (prev : Option Str) (k : Nat) : List Str → Bool
  | [] => true
  | l :: ls =>
    if has_timestamp l then
      decide (prev = some (natStr k)) && numberedFrom (some l) (k + 1) ls
    else numberedFrom (some l) k ls

/-- No two adjacent empty lines. -/
def noTwoBlank : List Str → Bool
  | [] => true
  | [_] => true
  | x :: y :: rest => !(decide (x = []) && decide (y = [])) && noTwoBlank (y :: rest)

/-- Adjacent empty lines never sit strictly between two recognized
timestamp lines (the blank-gap part of the conversion invariant: no two
consecutive cues are separated by more than one empty line). -/
def gapOk (ls : List Str) : Prop :=
  ∀ i, i + 1 < ls.length → ls.get? i = some [] → ls.get? (i + 1) = some [] →
    ¬((∃ j, j < i ∧ ∃ l, ls.get? j = some l ∧ has_timestamp l = true) ∧
      (∃ j, i + 1 < j ∧ ∃ l, ls.get? j = some l ∧ has_timestamp l = true))

/-- The full output invariant claimed for `convert_content`, as a decidable
check on the output's line list: correct immediate numbering and no
adjacent blank pair strictly between two timestamp lines. -/
def srtInvariant (s : Str) : Bool :=
  let ls := pySplit '\n' s
  numberedFrom none 1 ls &&
    (List.range ls.length).all fun i =>
      !(decide (ls.get? i = some []) && decide (ls.get? (i + 1) = some []) &&
        ((List.range i).any fun j =>
          match ls.get? j with
          | some l => has_timestamp l
          | none => false) &&
        ((List.range ls.length).any fun j =>
          decide (i + 1 < j) &&
            match ls.get? j with
            | some l => has_timestamp l
            | none => false))

/-- No stale identifier: no line is a bare numeric line immediately followed
by a recognized timestamp line. -/
def noStale : List Str → Prop
  | [] => True
  | [_] => True
  | x :: y :: rest =>
    ¬(isNumericLine x = true ∧ has_timestamp y = true) ∧ noStale (y :: rest)

/-- Forward one-pass description of `remove_simple_identifiers`: drop every
bare numeric line immediately followed by a recognized timestamp line. -/
def dropStale : List Str → List Str
  | [] => []
  | [x] => [x]
  | x :: y :: rest =>
    if isNumericLine x && has_timestamp y then dropStale (y :: rest)
    else x :: dropStale (y :: rest)

/-- `pat` occurs as a contiguous subsequence of `s`. -/
def containsSeq (pat : Str) : Str → Bool
  | [] => pat.isPrefixOf []
  | c :: cs => pat.isPrefixOf (c :: cs) || containsSeq pat cs

/-- One cue-settings token, rendered as `key:value`. -/
def renderTok (t : Str × Str) : Str := t.1 ++ ':' :: t.2

/-- A list of cue-settings tokens, rendered in sequence. -/
def renderSettings (ts : List (Str × Str)) : Str :=
  ts.foldr (fun t acc => renderTok t ++ acc) []

/-- A well-formed cue-settings token: a nonempty `[ \-\w]+` key and a
nonempty `[\w\%\d:,.]+` value. -/
def wfTok (t : Str × Str) : Prop :=
  t.1 ≠ [] ∧ (∀ c ∈ t.1, keyCh c = true) ∧ t.2 ≠ [] ∧ ∀ c ∈ t.2, valCh c = true

/-- Well-formed cue-settings: every token well formed, and every token after
the first starts with a character outside the value class (for instance the
space or dash that separates VTT cue settings), so that the greedy value run
of one token stops exactly at the start of the next. -/
def wfSettings : List (Str × Str) → Prop
  | [] => True
  | [t] => wfTok t
  | t :: t2 :: rest =>
    wfTok t ∧ (∀ c, t2.1.headI = c → valCh c = false) ∧ wfSettings (t2 :: rest)

/-!  ## Character facts -/

theorem ne_of_classes {c x : Char} (h : isDigitCh c = true)
    (hx : isDigitCh x = false) : (c = x) = False := by
  refine eq_false fun hc => ?_
  rw [hc, hx] at h
  exact Bool.false_ne_true h

@[simp] theorem digit_ne_colon {c : Char} (h : isDigitCh c = true) :
    (c = ':') = False := ne_of_classes h (by decide)

@[simp] theorem digit_ne_comma {c : Char} (h : isDigitCh c = true) :
    (c = ',') = False := ne_of_classes h (by decide)

@[simp] theorem digit_ne_dot {c : Char} (h : isDigitCh c = true) :
    (c = '.') = False := ne_of_classes h (by decide)

@[simp] theorem digit_ne_space {c : Char} (h : isDigitCh c = true) :
    (c = ' ') = False := ne_of_classes h (by decide)

@[simp] theorem digit_ne_dash {c : Char} (h : isDigitCh c = true) :
    (c = '-') = False := ne_of_classes h (by decide)

@[simp] theorem digit_ne_gt {c : Char} (h : isDigitCh c = true) :
    (c = '>') = False := ne_of_classes h (by decide)

@[simp] theorem digit_ne_nl {c : Char} (h : isDigitCh c = true) :
    (c = '\n') = False := ne_of_classes h (by decide)


@[simp] theorem anyCh_of_digit {c : Char} (h : isDigitCh c = true) :
    anyCh c = true := by
  simp [anyCh, digit_ne_nl h]

/-!  ## Building blocks of the timestamp matcher on symbolic digits -/

theorem head?_cons_append (a : α) (l1 l2 : List α) :
    ((a :: l1) ++ l2).head? = some a := rfl

theorem head?_destruct {l : List α} {v : α} (h : l.head? = some v) :
    ∃ t, l = v :: t := by
  cases l with
  | nil => simp at h
  | cons a t =>
    simp at h
    exact ⟨t, by rw [h]⟩

theorem clsSplits_cons_pos {p : Char → Bool} {c : Char} (cs : Str)
    (hc : p c = true) :
    clsSplits p (c :: cs) =
      ((clsSplits p cs).map fun t => (c :: t.1, t.2)) ++ [([c], cs)] := by
  simp [clsSplits, hc]

theorem clsSplits_head {p : Char → Bool} {a rest : Str} (ha : a ≠ [])
    (hall : ∀ c ∈ a, p c = true)
    (hrest : ∀ c, rest.head? = some c → p c = false) :
    (clsSplits p (a ++ rest)).head? = some (a, rest) := by
  induction a with
  | nil => exact absurd rfl ha
  | cons c a ih =>
    have hc : p c = true := hall c (List.mem_cons_self c a)
    cases a with
    | nil =>
      have hsp : clsSplits p rest = [] := by
        cases rest with
        | nil => rfl
        | cons d ds =>
          have hd : p d = false := hrest d rfl
          simp [clsSplits, hd]
      simp [clsSplits, hc, hsp]
    | cons c2 a2 =>
      have ih2 := ih (by simp) fun d hd => hall d (List.mem_cons_of_mem c hd)
      obtain ⟨tl, hx⟩ := head?_destruct ih2
      simp only [List.cons_append] at hx ⊢
      rw [clsSplits_cons_pos _ hc, hx]
      simp

theorem tokenRests_head {t : Str × Str} {rest : Str} (hw : wfTok t)
    (hrest : ∀ c, rest.head? = some c → valCh c = false) :
    (tokenRests (renderTok t ++ rest)).head? = some rest := by
  obtain ⟨h1, h2, h3, h4⟩ := hw
  have hkey : (clsSplits keyCh (t.1 ++ ':' :: (t.2 ++ rest))).head? =
      some (t.1, ':' :: (t.2 ++ rest)) := by
    refine clsSplits_head h1 h2 fun c hc => ?_
    simp at hc
    rw [← hc]
    decide
  obtain ⟨us, hx⟩ := head?_destruct hkey
  have hval : (clsSplits valCh (t.2 ++ rest)).head? = some (t.2, rest) :=
    clsSplits_head h3 h4 hrest
  obtain ⟨vs, hy⟩ := head?_destruct hval
  have hre : renderTok t ++ rest = t.1 ++ ':' :: (t.2 ++ rest) := by
    simp [renderTok]
  rw [hre]
  simp [tokenRests, hx, hy]

theorem starRests_ne_nil (fuel : Nat) (s : Str) : starRests fuel s ≠ [] := by
  cases fuel with
  | zero => simp [starRests]
  | succ f => simp [starRests]

theorem wfSettings_headTok {x : Str × Str} {xs : List (Str × Str)}
    (h : wfSettings (x :: xs)) : wfTok x := by
  cases xs with
  | nil => exact h
  | cons y ys => exact h.1

theorem wfSettings_tailToks {x : Str × Str} {xs : List (Str × Str)}
    (h : wfSettings (x :: xs)) : wfSettings xs := by
  cases xs with
  | nil => trivial
  | cons y ys => exact h.2.2

theorem starRests_head_settings {ts : List (Str × Str)} {fuel : Nat}
    (hw : wfSettings ts) (hfuel : ts.length ≤ fuel) :
    (starRests fuel (renderSettings ts ++ ['\n'])).head? = some ['\n'] := by
  induction ts generalizing fuel with
  | nil =>
    cases fuel with
    | zero => rfl
    | succ f =>
      have h0 : tokenRests ['\n'] = [] := by decide
      simp [starRests, renderSettings, h0]
  | cons t ts ih =>
    cases fuel with
    | zero => exact absurd hfuel (by simp)
    | succ f =>
      have hwt : wfTok t := wfSettings_headTok hw
      have hwts : wfSettings ts := wfSettings_tailToks hw
      have hrest : ∀ c, (renderSettings ts ++ ['\n']).head? = some c →
          valCh c = false := by
        intro c hc
        cases ts with
        | nil =>
          simp [renderSettings] at hc
          rw [← hc]; decide
        | cons t2 rest =>
          have hkey := hw.2.1
          have h1 : t2.1 ≠ [] := (wfSettings_headTok hwts).1
          rcases hz : t2.1 with _ | ⟨d, ds⟩
          · exact absurd hz h1
          · have hh : (renderSettings (t2 :: rest) ++ ['\n']).head? = some d := by
              simp [renderSettings, renderTok, hz]
            rw [hh] at hc
            have hd := hkey d
            rw [hz] at hd
            simp [List.headI] at hd
            injection hc with hc2
            rw [← hc2]
            exact hd
      have hrender : renderSettings (t :: ts) ++ ['\n'] =
          renderTok t ++ (renderSettings ts ++ ['\n']) := by
        simp [renderSettings]
      rw [hrender]
      obtain ⟨rs, hx⟩ := head?_destruct (tokenRests_head hwt hrest)
      have hf2 : ts.length ≤ f := by simp at hfuel; omega
      have ihf := ih hwts hf2
      obtain ⟨qs, hy⟩ := head?_destruct ihf
      simp [starRests, hx, hy]

@[simp] theorem isDigitCh_colon : isDigitCh ':' = false := by decide

@[simp] theorem isDigitCh_comma : isDigitCh ',' = false := by decide

@[simp] theorem isDigitCh_dot : isDigitCh '.' = false := by decide

@[simp] theorem isDigitCh_space : isDigitCh ' ' = false := by decide

@[simp] theorem isDigitCh_dash : isDigitCh '-' = false := by decide

@[simp] theorem isDigitCh_gt : isDigitCh '>' = false := by decide

@[simp] theorem isDigitCh_nl : isDigitCh '\n' = false := by decide

theorem renderSettings_length {ts : List (Str × Str)} (hw : wfSettings ts) :
    ts.length ≤ (renderSettings ts).length := by
  induction ts with
  | nil => simp [renderSettings]
  | cons t ts ih =>
    have h1 : t.1 ≠ [] := (wfSettings_headTok hw).1
    have h2 := ih (wfSettings_tailToks hw)
    have : renderSettings (t :: ts) = renderTok t ++ renderSettings ts := rfl
    rw [this]
    simp [renderTok]
    cases hz : t.1 with
    | nil => exact absurd hz h1
    | cons c cs => simp [hz]; omega

/-- The head match of the `all_timestamp` pattern on a full
`HH:MM:SS.mmm --> HH:MM:SS.mmm` line followed by well-formed cue settings:
the greedy first parse captures the two full time fields and millisecond
groups, consumes the settings and the newline, and leaves nothing. -/
theorem matchTsAt_vtt_full
    {h1 h2 m1 m2 s1 s2 e1 e2 e3 H1 H2 M1 M2 S1 S2 f1 f2 f3 : Char}
    {ts : List (Str × Str)}
    (dh1 : isDigitCh h1 = true) (dh2 : isDigitCh h2 = true)
    (dm1 : isDigitCh m1 = true) (dm2 : isDigitCh m2 = true)
    (ds1 : isDigitCh s1 = true) (ds2 : isDigitCh s2 = true)
    (de1 : isDigitCh e1 = true) (de2 : isDigitCh e2 = true)
    (de3 : isDigitCh e3 = true)
    (dH1 : isDigitCh H1 = true) (dH2 : isDigitCh H2 = true)
    (dM1 : isDigitCh M1 = true) (dM2 : isDigitCh M2 = true)
    (dS1 : isDigitCh S1 = true) (dS2 : isDigitCh S2 = true)
    (df1 : isDigitCh f1 = true) (df2 : isDigitCh f2 = true)
    (df3 : isDigitCh f3 = true)
    (hw : wfSettings ts) :
    matchTsAt vttPat
      ([h1, h2, ':', m1, m2, ':', s1, s2] ++ '.' :: [e1, e2, e3] ++ arrowChars ++
        [H1, H2, ':', M1, M2, ':', S1, S2] ++ '.' :: [f1, f2, f3] ++
        renderSettings ts ++ ['\n']) =
      some (⟨[h1, h2, ':', m1, m2, ':', s1, s2], [e1, e2, e3],
        [H1, H2, ':', M1, M2, ':', S1, S2], [f1, f2, f3]⟩, []) := by
  have hfuel : ts.length ≤ (renderSettings ts ++ ['\n']).length := by
    have := renderSettings_length hw
    simp
    omega
  obtain ⟨qs, hstar⟩ := head?_destruct (starRests_head_settings hw hfuel)
  simp only [List.length_append, List.length_cons, List.length_nil] at hstar
  simp [matchTsAt, vttPat, timeAlts, ddColonN, ddColon, twoDigits, msAlts,
    takeDigits, clsOne, litM, arrowChars, anyCh, hstar,
    dh1, dh2, dm1, dm2, ds1, ds2, de1, de2, de3,
    dH1, dH2, dM1, dM2, dS1, dS2, df1, df2, df3]

/-- When the pattern matches at the start of the content and consumes all of
it, the substitution emits just the replacement. -/
theorem subTs_single_match {p : TsPat} {repl : TsGroups → Str} {s : Str}
    {g : TsGroups} (hne : s ≠ []) (h : matchTsAt p s = some (g, [])) :
    subTs p repl s = repl g := by
  cases s with
  | nil => exact absurd rfl hne
  | cons c cs => simp [subTs, List.length_cons, subTsGo, h]

theorem subTsGo_eq_self_of_none {p : TsPat} {repl : TsGroups → Str} {s : Str}
    (h : ∀ suf, suf <:+ s → matchTsAt p suf = none) :
    ∀ fuel, subTsGo p repl fuel s = s := by
  induction s with
  | nil => intro fuel; cases fuel <;> rfl
  | cons c cs ih =>
    intro fuel
    cases fuel with
    | zero => rfl
    | succ f =>
      have hc : matchTsAt p (c :: cs) = none := h (c :: cs) (List.suffix_refl _)
      have ihc := ih (fun suf hsuf => h suf (hsuf.trans (List.suffix_cons c cs))) f
      simp [subTsGo, hc, ihc]

/-- When no suffix of the content matches the pattern, the substitution is
the identity. -/
theorem subTs_eq_self_of_none {p : TsPat} {repl : TsGroups → Str} {s : Str}
    (h : ∀ suf, suf <:+ s → matchTsAt p suf = none) :
    subTs p repl s = s := subTsGo_eq_self_of_none h _

theorem starRests_one_nl : starRests 1 ['\n'] = [['\n']] := by decide

/-- The head match of the `all_timestamp` pattern on an `MM:SS.mmm` pair:
the greedy engine fails the two-colon parse and commits to the one-colon
parse on both sides. -/
theorem matchTsAt_vtt_mm {m1 m2 s1 s2 e1 e2 e3 M1 M2 S1 S2 f1 f2 f3 : Char}
    (dm1 : isDigitCh m1 = true) (dm2 : isDigitCh m2 = true)
    (ds1 : isDigitCh s1 = true) (ds2 : isDigitCh s2 = true)
    (de1 : isDigitCh e1 = true) (de2 : isDigitCh e2 = true)
    (de3 : isDigitCh e3 = true)
    (dM1 : isDigitCh M1 = true) (dM2 : isDigitCh M2 = true)
    (dS1 : isDigitCh S1 = true) (dS2 : isDigitCh S2 = true)
    (df1 : isDigitCh f1 = true) (df2 : isDigitCh f2 = true)
    (df3 : isDigitCh f3 = true) :
    matchTsAt vttPat
      ([m1, m2, ':', s1, s2] ++ '.' :: [e1, e2, e3] ++ arrowChars ++
        [M1, M2, ':', S1, S2] ++ '.' :: [f1, f2, f3] ++ ['\n']) =
      some (⟨[m1, m2, ':', s1, s2], [e1, e2, e3],
        [M1, M2, ':', S1, S2], [f1, f2, f3]⟩, []) := by
  simp [matchTsAt, vttPat, timeAlts, ddColonN, ddColon, twoDigits, msAlts,
    takeDigits, clsOne, litM, arrowChars, anyCh, starRests_one_nl,
    dm1, dm2, ds1, ds2, de1, de2, de3, dM1, dM2, dS1, dS2, df1, df2, df3]

/-- The head match of the `all_timestamp` pattern on an `SS.mmm` pair: the
greedy engine commits to the zero-colon parse on both sides. -/
theorem matchTsAt_vtt_ss {s1 s2 e1 e2 e3 S1 S2 f1 f2 f3 : Char}
    (ds1 : isDigitCh s1 = true) (ds2 : isDigitCh s2 = true)
    (de1 : isDigitCh e1 = true) (de2 : isDigitCh e2 = true)
    (de3 : isDigitCh e3 = true)
    (dS1 : isDigitCh S1 = true) (dS2 : isDigitCh S2 = true)
    (df1 : isDigitCh f1 = true) (df2 : isDigitCh f2 = true)
    (df3 : isDigitCh f3 = true) :
    matchTsAt vttPat
      ([s1, s2] ++ '.' :: [e1, e2, e3] ++ arrowChars ++
        [S1, S2] ++ '.' :: [f1, f2, f3] ++ ['\n']) =
      some (⟨[s1, s2], [e1, e2, e3], [S1, S2], [f1, f2, f3]⟩, []) := by
  simp [matchTsAt, vttPat, timeAlts, ddColonN, ddColon, twoDigits, msAlts,
    takeDigits, clsOne, litM, arrowChars, anyCh, starRests_one_nl,
    ds1, ds2, de1, de2, de3, dS1, dS2, df1, df2, df3]

/-- The head match of the `all_timestamp` pattern on a mixed-shape pair,
left `MM:SS.mmm`, right `HH:MM:SS.mmm`: each side's repetition count is
chosen independently in this pattern. -/
theorem matchTsAt_vtt_mixed
    {m1 m2 s1 s2 e1 e2 e3 H1 H2 M1 M2 S1 S2 f1 f2 f3 : Char}
    (dm1 : isDigitCh m1 = true) (dm2 : isDigitCh m2 = true)
    (ds1 : isDigitCh s1 = true) (ds2 : isDigitCh s2 = true)
    (de1 : isDigitCh e1 = true) (de2 : isDigitCh e2 = true)
    (de3 : isDigitCh e3 = true)
    (dH1 : isDigitCh H1 = true) (dH2 : isDigitCh H2 = true)
    (dM1 : isDigitCh M1 = true) (dM2 : isDigitCh M2 = true)
    (dS1 : isDigitCh S1 = true) (dS2 : isDigitCh S2 = true)
    (df1 : isDigitCh f1 = true) (df2 : isDigitCh f2 = true)
    (df3 : isDigitCh f3 = true) :
    matchTsAt vttPat
      ([m1, m2, ':', s1, s2] ++ '.' :: [e1, e2, e3] ++ arrowChars ++
        [H1, H2, ':', M1, M2, ':', S1, S2] ++ '.' :: [f1, f2, f3] ++ ['\n']) =
      some (⟨[m1, m2, ':', s1, s2], [e1, e2, e3],
        [H1, H2, ':', M1, M2, ':', S1, S2], [f1, f2, f3]⟩, []) := by
  simp [matchTsAt, vttPat, timeAlts, ddColonN, ddColon, twoDigits, msAlts,
    takeDigits, clsOne, litM, arrowChars, anyCh, starRests_one_nl,
    dm1, dm2, ds1, ds2, de1, de2, de3, dH1, dH2, dM1, dM2, dS1, dS2,
    df1, df2, df3]

/-- The head match of the `padding_minute` pattern on an `MM:SS,mmm` pair. -/
theorem matchTsAt_minute_mm {m1 m2 s1 s2 e1 e2 e3 M1 M2 S1 S2 f1 f2 f3 : Char}
    (dm1 : isDigitCh m1 = true) (dm2 : isDigitCh m2 = true)
    (ds1 : isDigitCh s1 = true) (ds2 : isDigitCh s2 = true)
    (de1 : isDigitCh e1 = true) (de2 : isDigitCh e2 = true)
    (de3 : isDigitCh e3 = true)
    (dM1 : isDigitCh M1 = true) (dM2 : isDigitCh M2 = true)
    (dS1 : isDigitCh S1 = true) (dS2 : isDigitCh S2 = true)
    (df1 : isDigitCh f1 = true) (df2 : isDigitCh f2 = true)
    (df3 : isDigitCh f3 = true) :
    matchTsAt minutePat
      ([m1, m2, ':', s1, s2] ++ ',' :: [e1, e2, e3] ++ arrowChars ++
        [M1, M2, ':', S1, S2] ++ ',' :: [f1, f2, f3] ++ ['\n']) =
      some (⟨[m1, m2, ':', s1, s2], [e1, e2, e3],
        [M1, M2, ':', S1, S2], [f1, f2, f3]⟩, []) := by
  simp [matchTsAt, minutePat, timeAlts, ddColonN, ddColon, twoDigits, msAlts,
    takeDigits, clsOne, litM, arrowChars, starRests_one_nl,
    dm1, dm2, ds1, ds2, de1, de2, de3, dM1, dM2, dS1, dS2, df1, df2, df3]

/-- Every suffix of the content fails the pattern (structured form). -/
def allSufNone (p : TsPat) : Str → Prop
  | [] => matchTsAt p [] = none
  | c :: cs => matchTsAt p (c :: cs) = none ∧ allSufNone p cs

theorem allSufNone_spec {p : TsPat} {s : Str} (h : allSufNone p s) :
    ∀ suf, suf <:+ s → matchTsAt p suf = none := by
  induction s with
  | nil =>
    intro suf hsuf
    rw [List.suffix_nil.mp hsuf]
    exact h
  | cons c cs ih =>
    intro suf hsuf
    rcases List.suffix_cons_iff.mp hsuf with rfl | h2
    · exact h.1
    · exact ih h.2 suf h2

theorem timeAlts_nil (ks : List Nat) : timeAlts ks [] = [] := by
  induction ks with
  | nil => rfl
  | cons k ks ih =>
    cases k with
    | zero => simp [timeAlts, ddColonN, twoDigits] at ih ⊢; exact ih
    | succ j => simp [timeAlts, ddColonN, ddColon] at ih ⊢; exact ih

theorem matchTsAt_nil (p : TsPat) : matchTsAt p [] = none := by
  simp [matchTsAt, timeAlts_nil]

/-- Quick refutation for `padding_minute`: the pattern needs
`\d\d:\d\d,` at the match position. -/
theorem matchTsAt_minute_none6 {a b c d e f : Char} {r : Str}
    (h : (isDigitCh a && isDigitCh b && decide (c = ':') && isDigitCh d &&
      isDigitCh e && decide (f = ',')) = false) :
    matchTsAt minutePat (a :: b :: c :: d :: e :: f :: r) = none := by
  cases hA : isDigitCh a with
  | false =>
    simp [matchTsAt, minutePat, timeAlts, ddColonN, ddColon, hA]
  | true =>
  cases hB : isDigitCh b with
  | false =>
    simp [matchTsAt, minutePat, timeAlts, ddColonN, ddColon, hA, hB]
  | true =>
  by_cases hC : c = ':'
  case neg =>
    simp [matchTsAt, minutePat, timeAlts, ddColonN, ddColon, hA, hB, hC]
  case pos =>
  cases hD : isDigitCh d with
  | false =>
    simp [matchTsAt, minutePat, timeAlts, ddColonN, ddColon, twoDigits,
      hA, hB, hC, hD]
  | true =>
  cases hE : isDigitCh e with
  | false =>
    simp [matchTsAt, minutePat, timeAlts, ddColonN, ddColon, twoDigits,
      hA, hB, hC, hD, hE]
  | true =>
  by_cases hF : f = ','
  case neg =>
    simp [matchTsAt, minutePat, timeAlts, ddColonN, ddColon, twoDigits,
      clsOne, hA, hB, hC, hD, hE, hF]
  case pos =>
    rw [hA, hB, hD, hE] at h
    simp [hC, hF] at h

/-- Quick refutation for `padding_second`: the pattern needs `\d\d,` at the
match position. -/
theorem matchTsAt_second_none3 {a b c : Char} {r : Str}
    (h : (isDigitCh a && isDigitCh b && decide (c = ',')) = false) :
    matchTsAt secondPat (a :: b :: c :: r) = none := by
  cases hA : isDigitCh a with
  | false =>
    simp [matchTsAt, secondPat, timeAlts, ddColonN, twoDigits, hA]
  | true =>
  cases hB : isDigitCh b with
  | false =>
    simp [matchTsAt, secondPat, timeAlts, ddColonN, twoDigits, hA, hB]
  | true =>
  by_cases hC : c = ','
  case neg =>
    simp [matchTsAt, secondPat, timeAlts, ddColonN, twoDigits, clsOne,
      hA, hB, hC]
  case pos =>
    rw [hA, hB] at h
    simp [hC] at h

/-- The head match of the `padding_second` pattern on an `SS,mmm` pair. -/
theorem matchTsAt_second_ss {s1 s2 e1 e2 e3 S1 S2 f1 f2 f3 : Char}
    (ds1 : isDigitCh s1 = true) (ds2 : isDigitCh s2 = true)
    (de1 : isDigitCh e1 = true) (de2 : isDigitCh e2 = true)
    (de3 : isDigitCh e3 = true)
    (dS1 : isDigitCh S1 = true) (dS2 : isDigitCh S2 = true)
    (df1 : isDigitCh f1 = true) (df2 : isDigitCh f2 = true)
    (df3 : isDigitCh f3 = true) :
    matchTsAt secondPat
      ([s1, s2] ++ ',' :: [e1, e2, e3] ++ arrowChars ++
        [S1, S2] ++ ',' :: [f1, f2, f3] ++ ['\n']) =
      some (⟨[s1, s2], [e1, e2, e3], [S1, S2], [f1, f2, f3]⟩, []) := by
  simp [matchTsAt, secondPat, timeAlts, ddColonN, ddColon, twoDigits, msAlts,
    takeDigits, clsOne, litM, arrowChars, starRests_one_nl,
    ds1, ds2, de1, de2, de3, dS1, dS2, df1, df2, df3]


/-- The `padding_minute` substitution leaves a full `HH:MM:SS,mmm` pair
unchanged: no position of such a line matches the pattern. -/
theorem padMinute_id_full
    {h1 h2 m1 m2 s1 s2 e1 e2 e3 H1 H2 M1 M2 S1 S2 f1 f2 f3 : Char}
    (dh1 : isDigitCh h1 = true) (dh2 : isDigitCh h2 = true)
    (dm1 : isDigitCh m1 = true) (dm2 : isDigitCh m2 = true)
    (ds1 : isDigitCh s1 = true) (ds2 : isDigitCh s2 = true)
    (de1 : isDigitCh e1 = true) (de2 : isDigitCh e2 = true)
    (de3 : isDigitCh e3 = true)
    (dH1 : isDigitCh H1 = true) (dH2 : isDigitCh H2 = true)
    (dM1 : isDigitCh M1 = true) (dM2 : isDigitCh M2 = true)
    (dS1 : isDigitCh S1 = true) (dS2 : isDigitCh S2 = true)
    (df1 : isDigitCh f1 = true) (df2 : isDigitCh f2 = true)
    (df3 : isDigitCh f3 = true) :
    subTs minutePat replMinute
      ([h1, h2, ':', m1, m2, ':', s1, s2] ++ ',' :: [e1, e2, e3] ++ arrowChars ++
        [H1, H2, ':', M1, M2, ':', S1, S2] ++ ',' :: [f1, f2, f3] ++ ['\n']) =
      [h1, h2, ':', m1, m2, ':', s1, s2] ++ ',' :: [e1, e2, e3] ++ arrowChars ++
        [H1, H2, ':', M1, M2, ':', S1, S2] ++ ',' :: [f1, f2, f3] ++ ['\n'] := by
  refine subTs_eq_self_of_none (allSufNone_spec ?_)
  simp only [arrowChars, List.cons_append, List.nil_append, allSufNone]
  repeat' apply And.intro
  all_goals first
    | exact matchTsAt_nil minutePat
    | (refine matchTsAt_minute_none6 ?_ ;
        simp [dh1, dh2, dm1, dm2, ds1, ds2, de1, de2, de3,
          dH1, dH2, dM1, dM2, dS1, dS2, df1, df2, df3] ;
        done)
    | simp [matchTsAt, minutePat, timeAlts, ddColonN, ddColon, twoDigits,
        msAlts, takeDigits, clsOne, litM, arrowChars,
        dh1, dh2, dm1, dm2, ds1, ds2, de1, de2, de3,
        dH1, dH2, dM1, dM2, dS1, dS2, df1, df2, df3]


/-- The `padding_second` substitution leaves a full `HH:MM:SS,mmm` pair unchanged. -/
theorem padSecond_id_full
    {h1 h2 m1 m2 s1 s2 e1 e2 e3 H1 H2 M1 M2 S1 S2 f1 f2 f3 : Char}
    (dh1 : isDigitCh h1 = true) (dh2 : isDigitCh h2 = true)
    (dm1 : isDigitCh m1 = true) (dm2 : isDigitCh m2 = true)
    (ds1 : isDigitCh s1 = true) (ds2 : isDigitCh s2 = true)
    (de1 : isDigitCh e1 = true) (de2 : isDigitCh e2 = true)
    (de3 : isDigitCh e3 = true)
    (dH1 : isDigitCh H1 = true) (dH2 : isDigitCh H2 = true)
    (dM1 : isDigitCh M1 = true) (dM2 : isDigitCh M2 = true)
    (dS1 : isDigitCh S1 = true) (dS2 : isDigitCh S2 = true)
    (df1 : isDigitCh f1 = true) (df2 : isDigitCh f2 = true)
    (df3 : isDigitCh f3 = true) :
    subTs secondPat replSecond
      ([h1, h2, ':', m1, m2, ':', s1, s2] ++ ',' :: [e1, e2, e3] ++ arrowChars ++
        [H1, H2, ':', M1, M2, ':', S1, S2] ++ ',' :: [f1, f2, f3] ++ ['\n']) =
      [h1, h2, ':', m1, m2, ':', s1, s2] ++ ',' :: [e1, e2, e3] ++ arrowChars ++
        [H1, H2, ':', M1, M2, ':', S1, S2] ++ ',' :: [f1, f2, f3] ++ ['\n'] := by
  refine subTs_eq_self_of_none (allSufNone_spec ?_)
  simp only [arrowChars, List.cons_append, List.nil_append, allSufNone]
  repeat' apply And.intro
  all_goals first
    | exact matchTsAt_nil secondPat
    | (refine matchTsAt_second_none3 ?_ ;
        simp [dh1, dh2, dm1, dm2, ds1, ds2, de1, de2, de3,
        dH1, dH2, dM1, dM2, dS1, dS2, df1, df2, df3] ;
        done)
    | simp [matchTsAt, secondPat, timeAlts, ddColonN, ddColon, twoDigits,
        msAlts, takeDigits, clsOne, litM, arrowChars,
        dh1, dh2, dm1, dm2, ds1, ds2, de1, de2, de3,
        dH1, dH2, dM1, dM2, dS1, dS2, df1, df2, df3]

/-- The `padding_minute` substitution leaves an `SS,mmm` pair unchanged. -/
theorem padMinute_id_ss
    {s1 s2 e1 e2 e3 S1 S2 f1 f2 f3 : Char}
    (ds1 : isDigitCh s1 = true) (ds2 : isDigitCh s2 = true)
    (de1 : isDigitCh e1 = true) (de2 : isDigitCh e2 = true)
    (de3 : isDigitCh e3 = true)
    (dS1 : isDigitCh S1 = true) (dS2 : isDigitCh S2 = true)
    (df1 : isDigitCh f1 = true) (df2 : isDigitCh f2 = true)
    (df3 : isDigitCh f3 = true) :
    subTs minutePat replMinute
      ([s1, s2] ++ ',' :: [e1, e2, e3] ++ arrowChars ++
        [S1, S2] ++ ',' :: [f1, f2, f3] ++ ['\n']) =
      [s1, s2] ++ ',' :: [e1, e2, e3] ++ arrowChars ++
        [S1, S2] ++ ',' :: [f1, f2, f3] ++ ['\n'] := by
  refine subTs_eq_self_of_none (allSufNone_spec ?_)
  simp only [arrowChars, List.cons_append, List.nil_append, allSufNone]
  repeat' apply And.intro
  all_goals first
    | exact matchTsAt_nil minutePat
    | (refine matchTsAt_minute_none6 ?_ ;
        simp [ds1, ds2, de1, de2, de3, dS1, dS2, df1, df2, df3] ;
        done)
    | simp [matchTsAt, minutePat, timeAlts, ddColonN, ddColon, twoDigits,
        msAlts, takeDigits, clsOne, litM, arrowChars,
        ds1, ds2, de1, de2, de3, dS1, dS2, df1, df2, df3]

/-- The `padding_minute` substitution leaves a mixed `MM:SS,mmm --> HH:MM:SS,mmm` pair unchanged: its two sides must have the same one-colon shape to match. -/
theorem padMinute_id_mixed
    {m1 m2 s1 s2 e1 e2 e3 H1 H2 M1 M2 S1 S2 f1 f2 f3 : Char}
    (dm1 : isDigitCh m1 = true) (dm2 : isDigitCh m2 = true)
    (ds1 : isDigitCh s1 = true) (ds2 : isDigitCh s2 = true)
    (de1 : isDigitCh e1 = true) (de2 : isDigitCh e2 = true)
    (de3 : isDigitCh e3 = true)
    (dH1 : isDigitCh H1 = true) (dH2 : isDigitCh H2 = true)
    (dM1 : isDigitCh M1 = true) (dM2 : isDigitCh M2 = true)
    (dS1 : isDigitCh S1 = true) (dS2 : isDigitCh S2 = true)
    (df1 : isDigitCh f1 = true) (df2 : isDigitCh f2 = true)
    (df3 : isDigitCh f3 = true) :
    subTs minutePat replMinute
      ([m1, m2, ':', s1, s2] ++ ',' :: [e1, e2, e3] ++ arrowChars ++
        [H1, H2, ':', M1, M2, ':', S1, S2] ++ ',' :: [f1, f2, f3] ++ ['\n']) =
      [m1, m2, ':', s1, s2] ++ ',' :: [e1, e2, e3] ++ arrowChars ++
        [H1, H2, ':', M1, M2, ':', S1, S2] ++ ',' :: [f1, f2, f3] ++ ['\n'] := by
  refine subTs_eq_self_of_none (allSufNone_spec ?_)
  simp only [arrowChars, List.cons_append, List.nil_append, allSufNone]
  repeat' apply And.intro
  all_goals first
    | exact matchTsAt_nil minutePat
    | (refine matchTsAt_minute_none6 ?_ ;
        simp [dm1, dm2, ds1, ds2, de1, de2, de3,
        dH1, dH2, dM1, dM2, dS1, dS2, df1, df2, df3] ;
        done)
    | simp [matchTsAt, minutePat, timeAlts, ddColonN, ddColon, twoDigits,
        msAlts, takeDigits, clsOne, litM, arrowChars,
        dm1, dm2, ds1, ds2, de1, de2, de3,
        dH1, dH2, dM1, dM2, dS1, dS2, df1, df2, df3]

/-- The `padding_second` substitution leaves a mixed `MM:SS,mmm --> HH:MM:SS,mmm` pair unchanged. -/
theorem padSecond_id_mixed
    {m1 m2 s1 s2 e1 e2 e3 H1 H2 M1 M2 S1 S2 f1 f2 f3 : Char}
    (dm1 : isDigitCh m1 = true) (dm2 : isDigitCh m2 = true)
    (ds1 : isDigitCh s1 = true) (ds2 : isDigitCh s2 = true)
    (de1 : isDigitCh e1 = true) (de2 : isDigitCh e2 = true)
    (de3 : isDigitCh e3 = true)
    (dH1 : isDigitCh H1 = true) (dH2 : isDigitCh H2 = true)
    (dM1 : isDigitCh M1 = true) (dM2 : isDigitCh M2 = true)
    (dS1 : isDigitCh S1 = true) (dS2 : isDigitCh S2 = true)
    (df1 : isDigitCh f1 = true) (df2 : isDigitCh f2 = true)
    (df3 : isDigitCh f3 = true) :
    subTs secondPat replSecond
      ([m1, m2, ':', s1, s2] ++ ',' :: [e1, e2, e3] ++ arrowChars ++
        [H1, H2, ':', M1, M2, ':', S1, S2] ++ ',' :: [f1, f2, f3] ++ ['\n']) =
      [m1, m2, ':', s1, s2] ++ ',' :: [e1, e2, e3] ++ arrowChars ++
        [H1, H2, ':', M1, M2, ':', S1, S2] ++ ',' :: [f1, f2, f3] ++ ['\n'] := by
  refine subTs_eq_self_of_none (allSufNone_spec ?_)
  simp only [arrowChars, List.cons_append, List.nil_append, allSufNone]
  repeat' apply And.intro
  all_goals first
    | exact matchTsAt_nil secondPat
    | (refine matchTsAt_second_none3 ?_ ;
        simp [dm1, dm2, ds1, ds2, de1, de2, de3,
        dH1, dH2, dM1, dM2, dS1, dS2, df1, df2, df3] ;
        done)
    | simp [matchTsAt, secondPat, timeAlts, ddColonN, ddColon, twoDigits,
        msAlts, takeDigits, clsOne, litM, arrowChars,
        dm1, dm2, ds1, ds2, de1, de2, de3,
        dH1, dH2, dM1, dM2, dS1, dS2, df1, df2, df3]

/-- `convert_timestamp` on a full `HH:MM:SS.mmm --> HH:MM:SS.mmm` line with
well-formed cue settings: the separator becomes a comma, the digits and the
arrow are kept, the settings are dropped, and the padding substitutions do
not fire. -/
theorem convert_timestamp_full
    {h1 h2 m1 m2 s1 s2 e1 e2 e3 H1 H2 M1 M2 S1 S2 f1 f2 f3 : Char}
    {ts : List (Str × Str)}
    (dh1 : isDigitCh h1 = true) (dh2 : isDigitCh h2 = true)
    (dm1 : isDigitCh m1 = true) (dm2 : isDigitCh m2 = true)
    (ds1 : isDigitCh s1 = true) (ds2 : isDigitCh s2 = true)
    (de1 : isDigitCh e1 = true) (de2 : isDigitCh e2 = true)
    (de3 : isDigitCh e3 = true)
    (dH1 : isDigitCh H1 = true) (dH2 : isDigitCh H2 = true)
    (dM1 : isDigitCh M1 = true) (dM2 : isDigitCh M2 = true)
    (dS1 : isDigitCh S1 = true) (dS2 : isDigitCh S2 = true)
    (df1 : isDigitCh f1 = true) (df2 : isDigitCh f2 = true)
    (df3 : isDigitCh f3 = true)
    (hw : wfSettings ts) :
    convert_timestamp
      ([h1, h2, ':', m1, m2, ':', s1, s2] ++ '.' :: [e1, e2, e3] ++ arrowChars ++
        [H1, H2, ':', M1, M2, ':', S1, S2] ++ '.' :: [f1, f2, f3] ++
        renderSettings ts ++ ['\n']) =
      [h1, h2, ':', m1, m2, ':', s1, s2] ++ ',' :: [e1, e2, e3] ++ arrowChars ++
        [H1, H2, ':', M1, M2, ':', S1, S2] ++ ',' :: [f1, f2, f3] ++ ['\n'] := by
  unfold convert_timestamp add_padding_to_timestamp
  rw [subTs_single_match (by simp)
    (matchTsAt_vtt_full dh1 dh2 dm1 dm2 ds1 ds2 de1 de2 de3
      dH1 dH2 dM1 dM2 dS1 dS2 df1 df2 df3 hw)]
  have hp1 := padMinute_id_full dh1 dh2 dm1 dm2 ds1 ds2 de1 de2 de3
    dH1 dH2 dM1 dM2 dS1 dS2 df1 df2 df3
  have hp2 := padSecond_id_full dh1 dh2 dm1 dm2 ds1 ds2 de1 de2 de3
    dH1 dH2 dM1 dM2 dS1 dS2 df1 df2 df3
  simp only [replSwap, List.cons_append, List.nil_append] at hp1 hp2 ⊢
  rw [hp1, hp2]

/-- `convert_timestamp` on an `MM:SS.mmm --> MM:SS.mmm` line: the separator
swap is followed by the `padding_minute` rewrite, which prepends `00:` to
both sides. -/
theorem convert_timestamp_mm
    {m1 m2 s1 s2 e1 e2 e3 M1 M2 S1 S2 f1 f2 f3 : Char}
    (dm1 : isDigitCh m1 = true) (dm2 : isDigitCh m2 = true)
    (ds1 : isDigitCh s1 = true) (ds2 : isDigitCh s2 = true)
    (de1 : isDigitCh e1 = true) (de2 : isDigitCh e2 = true)
    (de3 : isDigitCh e3 = true)
    (dM1 : isDigitCh M1 = true) (dM2 : isDigitCh M2 = true)
    (dS1 : isDigitCh S1 = true) (dS2 : isDigitCh S2 = true)
    (df1 : isDigitCh f1 = true) (df2 : isDigitCh f2 = true)
    (df3 : isDigitCh f3 = true) :
    convert_timestamp
      ([m1, m2, ':', s1, s2] ++ '.' :: [e1, e2, e3] ++ arrowChars ++
        [M1, M2, ':', S1, S2] ++ '.' :: [f1, f2, f3] ++ ['\n']) =
      ['0', '0', ':', m1, m2, ':', s1, s2] ++ ',' :: [e1, e2, e3] ++
        arrowChars ++ ['0', '0', ':', M1, M2, ':', S1, S2] ++ ',' ::
        [f1, f2, f3] ++ ['\n'] := by
  unfold convert_timestamp add_padding_to_timestamp
  rw [subTs_single_match (by simp)
    (matchTsAt_vtt_mm dm1 dm2 ds1 ds2 de1 de2 de3 dM1 dM2 dS1 dS2
      df1 df2 df3)]
  have hmin := @subTs_single_match minutePat replMinute _ _ (by simp [replSwap])
    (matchTsAt_minute_mm dm1 dm2 ds1 ds2 de1 de2 de3 dM1 dM2 dS1 dS2
      df1 df2 df3)
  have d0 : isDigitCh '0' = true := by decide
  have hsec := padSecond_id_full d0 d0 dm1 dm2 ds1 ds2 de1 de2 de3
    d0 d0 dM1 dM2 dS1 dS2 df1 df2 df3
  simp only [replSwap, replMinute, List.cons_append, List.nil_append]
    at hmin hsec ⊢
  rw [hmin, hsec]

/-- `convert_timestamp` on an `SS.mmm --> SS.mmm` line: the separator swap
is followed by the `padding_second` rewrite, which prepends `00:00:` to
both sides. -/
theorem convert_timestamp_ss
    {s1 s2 e1 e2 e3 S1 S2 f1 f2 f3 : Char}
    (ds1 : isDigitCh s1 = true) (ds2 : isDigitCh s2 = true)
    (de1 : isDigitCh e1 = true) (de2 : isDigitCh e2 = true)
    (de3 : isDigitCh e3 = true)
    (dS1 : isDigitCh S1 = true) (dS2 : isDigitCh S2 = true)
    (df1 : isDigitCh f1 = true) (df2 : isDigitCh f2 = true)
    (df3 : isDigitCh f3 = true) :
    convert_timestamp
      ([s1, s2] ++ '.' :: [e1, e2, e3] ++ arrowChars ++
        [S1, S2] ++ '.' :: [f1, f2, f3] ++ ['\n']) =
      ['0', '0', ':', '0', '0', ':', s1, s2] ++ ',' :: [e1, e2, e3] ++
        arrowChars ++ ['0', '0', ':', '0', '0', ':', S1, S2] ++ ',' ::
        [f1, f2, f3] ++ ['\n'] := by
  unfold convert_timestamp add_padding_to_timestamp
  rw [subTs_single_match (by simp)
    (matchTsAt_vtt_ss ds1 ds2 de1 de2 de3 dS1 dS2 df1 df2 df3)]
  have hmin := padMinute_id_ss ds1 ds2 de1 de2 de3 dS1 dS2 df1 df2 df3
  have hsec := @subTs_single_match secondPat replSecond _ _ (by simp [replSwap])
    (matchTsAt_second_ss ds1 ds2 de1 de2 de3 dS1 dS2 df1 df2 df3)
  simp only [replSwap, replSecond, List.cons_append, List.nil_append]
    at hmin hsec ⊢
  rw [hmin, hsec]

/-- `convert_timestamp` on a mixed line, left `MM:SS.mmm`, right
`HH:MM:SS.mmm`: the separator swap fires, but neither padding pattern
matches (their two sides must have the same shape), so the left side stays
unpadded. -/
theorem convert_timestamp_mixed
    {m1 m2 s1 s2 e1 e2 e3 H1 H2 M1 M2 S1 S2 f1 f2 f3 : Char}
    (dm1 : isDigitCh m1 = true) (dm2 : isDigitCh m2 = true)
    (ds1 : isDigitCh s1 = true) (ds2 : isDigitCh s2 = true)
    (de1 : isDigitCh e1 = true) (de2 : isDigitCh e2 = true)
    (de3 : isDigitCh e3 = true)
    (dH1 : isDigitCh H1 = true) (dH2 : isDigitCh H2 = true)
    (dM1 : isDigitCh M1 = true) (dM2 : isDigitCh M2 = true)
    (dS1 : isDigitCh S1 = true) (dS2 : isDigitCh S2 = true)
    (df1 : isDigitCh f1 = true) (df2 : isDigitCh f2 = true)
    (df3 : isDigitCh f3 = true) :
    convert_timestamp
      ([m1, m2, ':', s1, s2] ++ '.' :: [e1, e2, e3] ++ arrowChars ++
        [H1, H2, ':', M1, M2, ':', S1, S2] ++ '.' :: [f1, f2, f3] ++ ['\n']) =
      [m1, m2, ':', s1, s2] ++ ',' :: [e1, e2, e3] ++ arrowChars ++
        [H1, H2, ':', M1, M2, ':', S1, S2] ++ ',' :: [f1, f2, f3] ++ ['\n'] := by
  unfold convert_timestamp add_padding_to_timestamp
  rw [subTs_single_match (by simp)
    (matchTsAt_vtt_mixed dm1 dm2 ds1 ds2 de1 de2 de3 dH1 dH2 dM1 dM2
      dS1 dS2 df1 df2 df3)]
  have hp1 := padMinute_id_mixed dm1 dm2 ds1 ds2 de1 de2 de3
    dH1 dH2 dM1 dM2 dS1 dS2 df1 df2 df3
  have hp2 := padSecond_id_mixed dm1 dm2 ds1 ds2 de1 de2 de3
    dH1 dH2 dM1 dM2 dS1 dS2 df1 df2 df3
  simp only [replSwap, List.cons_append, List.nil_append] at hp1 hp2 ⊢
  rw [hp1, hp2]

/-!  ## Decimal rendering of the cue counter -/

theorem digitChar_isDigit : ∀ n < 10, isDigitCh (Nat.digitChar n) = true := by
  decide

theorem toDigitsCore_digits :
    ∀ fuel n (ds : List Char), (∀ c ∈ ds, isDigitCh c = true) →
      ∀ c ∈ Nat.toDigitsCore 10 fuel n ds, isDigitCh c = true := by
  intro fuel
  induction fuel with
  | zero => intro n ds hds; exact hds
  | succ f ih =>
    intro n ds hds c hc
    rw [Nat.toDigitsCore] at hc
    by_cases hz : n / 10 = 0
    · simp only [hz, if_pos rfl] at hc
      rcases List.mem_cons.mp hc with rfl | hmem
      · exact digitChar_isDigit _ (Nat.mod_lt _ (by omega))
      · exact hds c hmem
    · simp only [if_neg hz] at hc
      refine ih (n / 10) (Nat.digitChar (n % 10) :: ds) ?_ c hc
      intro d hd
      rcases List.mem_cons.mp hd with rfl | hmem
      · exact digitChar_isDigit _ (Nat.mod_lt _ (by omega))
      · exact hds d hmem

theorem toDigitsCore_ne_nil :
    ∀ fuel n (ds : List Char), ds ≠ [] → Nat.toDigitsCore 10 fuel n ds ≠ [] := by
  intro fuel
  induction fuel with
  | zero => intro n ds hds; exact hds
  | succ f ih =>
    intro n ds hds
    simp only [Nat.toDigitsCore]
    by_cases hz : n / 10 = 0
    · simp [hz]
    · simp only [if_neg hz]
      exact ih (n / 10) _ (by simp)

theorem natStr_eq (n : Nat) : natStr n = Nat.toDigits 10 n := rfl

theorem natStr_digits (n : Nat) : ∀ c ∈ natStr n, isDigitCh c = true := by
  rw [natStr_eq, Nat.toDigits]
  exact toDigitsCore_digits _ _ _ (by simp)

theorem natStr_ne_nil (n : Nat) : natStr n ≠ [] := by
  rw [natStr_eq, Nat.toDigits]
  intro hc
  simp only [Nat.toDigitsCore] at hc
  by_cases hz : n / 10 = 0
  · simp [hz] at hc
  · simp only [if_neg hz] at hc
    exact toDigitsCore_ne_nil _ _ _ (by simp) hc

/-- An all-digit line is never recognized as a timestamp line (a timestamp
line has a colon as its third character). -/
theorem hasTs_false_of_digits {l : Str} (h : ∀ c ∈ l, isDigitCh c = true) :
    has_timestamp l = false := by
  rcases l with _ | ⟨a, _ | ⟨b, _ | ⟨c, r⟩⟩⟩
  · rfl
  · rfl
  · rfl
  · have hc : isDigitCh c = true := h c (by simp)
    simp [has_timestamp, ddColonN, ddColon, digit_ne_colon hc]

theorem natStr_not_ts (n : Nat) : has_timestamp (natStr n) = false :=
  hasTs_false_of_digits (natStr_digits n)

theorem natStr_numeric (n : Nat) : isNumericLine (natStr n) = true := by
  have h1 := natStr_ne_nil n
  have h2 := natStr_digits n
  rcases hx : natStr n with _ | ⟨c, r⟩
  · exact absurd hx h1
  · rw [hx] at h2
    simp [isNumericLine, List.all_eq_true]
    exact ⟨h2 c (by simp), fun d hd => h2 d (List.mem_cons_of_mem c hd)⟩

/-- A recognized timestamp line is not a bare numeric line (`^\d+$` cannot
match its colon), and is nonempty. -/
theorem ts_not_numeric {l : Str} (h : has_timestamp l = true) :
    isNumericLine l = false := by
  rcases l with _ | ⟨a, _ | ⟨b, _ | ⟨c, r⟩⟩⟩
  · simp [has_timestamp, ddColonN, ddColon] at h
  · simp [has_timestamp, ddColonN, ddColon] at h
  · simp [has_timestamp, ddColonN, ddColon] at h
  · by_cases hc : c = ':'
    · subst hc
      cases hall : (a :: b :: ':' :: r).all isDigitCh with
      | false => simp [isNumericLine, hall]
      | true =>
        exfalso
        rw [List.all_eq_true] at hall
        simpa using hall ':' (by simp)
    · simp [has_timestamp, ddColonN, ddColon, hc] at h

theorem ts_ne_nil {l : Str} (h : has_timestamp l = true) : l ≠ [] := by
  intro hl
  rw [hl] at h
  simp [has_timestamp, ddColonN, ddColon] at h

/-!  ## Sequence numbering: `add_sequence_numbers` against the weave
specification -/

theorem countTs_cons (l : Str) (ls : List Str) :
    countTs (l :: ls) =
      if has_timestamp l then countTs ls + 1 else countTs ls := by
  by_cases h : has_timestamp l <;> simp [countTs, List.filter, h]

theorem addSeqLines_eq_weave :
    ∀ (ls : List Str) (i : Nat),
      addSeqLines i ls = weave ls (List.range' i (countTs ls)) := by
  intro ls
  induction ls with
  | nil => intro i; rfl
  | cons l ls ih =>
    intro i
    by_cases h : has_timestamp l
    · simp [addSeqLines, weave, h, countTs_cons, List.range'_succ, ih]
    · simp [addSeqLines, weave, h, countTs_cons, ih]

theorem numberedFrom_of_no_ts :
    ∀ (tail : List Str) (prev : Option Str) (k : Nat),
      (∀ l ∈ tail, has_timestamp l = false) →
      numberedFrom prev k tail = true := by
  intro tail
  induction tail with
  | nil => intro prev k _; rfl
  | cons l ls ih =>
    intro prev k h
    have hl := h l (by simp)
    simp [numberedFrom, hl]
    exact ih _ k fun x hx => h x (List.mem_cons_of_mem l hx)

theorem numberedFrom_addSeq :
    ∀ (ls : List Str) (i : Nat) (prev : Option Str) (tail : List Str),
      (∀ l ∈ tail, has_timestamp l = false) →
      numberedFrom prev i (addSeqLines i ls ++ tail) = true := by
  intro ls
  induction ls with
  | nil => intro i prev tail h; exact numberedFrom_of_no_ts tail prev i h
  | cons l ls ih =>
    intro i prev tail h
    by_cases hl : has_timestamp l
    · simp only [addSeqLines, hl, if_true, List.cons_append]
      simp [numberedFrom, natStr_not_ts, hl, ih (i + 1) (some l) tail h]
    · simp only [addSeqLines, hl, if_false, List.cons_append]
      simp [numberedFrom, hl, ih i (some l) tail h]

/-- The string built by `add_sequence_numbers` is the numbered line list,
each line followed by a newline. -/
theorem add_sequence_numbers_eq (s : Str) :
    add_sequence_numbers s =
      ((addSeqLines 1 (pySplit '\n' s)).map (fun l => l ++ ['\n'])).flatten := by
  rw [add_sequence_numbers]
  generalize addSeqLines 1 (pySplit '\n' s) = ls
  induction ls with
  | nil => rfl
  | cons l ls ih => simp [ih]

/-!  ## Splitting on newlines and joining back -/

theorem pySplit_ne_nil (sep : Char) : ∀ s, pySplit sep s ≠ [] := by
  intro s
  induction s with
  | nil => simp [pySplit]
  | cons c cs ih =>
    by_cases hc : c = sep
    · simp [pySplit, hc]
    · simp only [pySplit, if_neg hc]
      rcases hx : pySplit sep cs with _ | ⟨x, xs⟩
      · simp
      · simp

theorem pySplit_no_sep (sep : Char) :
    ∀ s, ∀ l ∈ pySplit sep s, sep ∉ l := by
  intro s
  induction s with
  | nil =>
    intro l hl
    simp [pySplit] at hl
    simp [hl]
  | cons c cs ih =>
    intro l hl
    by_cases hc : c = sep
    · rw [pySplit, if_pos hc] at hl
      rcases List.mem_cons.mp hl with rfl | hmem
      · simp
      · exact ih l hmem
    · rw [pySplit, if_neg hc] at hl
      rcases hx : pySplit sep cs with _ | ⟨x, xs⟩
      · rw [hx] at hl
        simp at hl
        subst hl
        simp [Ne.symm hc]
      · rw [hx] at hl
        rcases List.mem_cons.mp hl with rfl | hmem
        · have hxmem : sep ∉ x := ih x (by rw [hx]; simp)
          simp [Ne.symm hc, hxmem]
        · exact ih l (by rw [hx]; exact List.mem_cons_of_mem x hmem)

theorem pySplit_self {sep : Char} : ∀ {l : Str}, sep ∉ l →
    pySplit sep l = [l] := by
  intro l
  induction l with
  | nil => intro _; rfl
  | cons c cs ih =>
    intro h
    have hc : ¬(c = sep) := fun hc => h (by simp [hc])
    have hcs : sep ∉ cs := fun hm => h (List.mem_cons_of_mem c hm)
    rw [pySplit, if_neg hc, ih hcs]

theorem pySplit_append_sep {sep : Char} : ∀ {l r : Str}, sep ∉ l →
    pySplit sep (l ++ sep :: r) = l :: pySplit sep r := by
  intro l
  induction l with
  | nil =>
    intro r _
    simp [pySplit]
  | cons c cs ih =>
    intro r h
    have hc : ¬(c = sep) := fun hc => h (by simp [hc])
    have hcs : sep ∉ cs := fun hm => h (List.mem_cons_of_mem c hm)
    rw [List.cons_append, pySplit, if_neg hc, ih hcs]

theorem pySplit_joinNl : ∀ (ls : List Str), ls ≠ [] →
    (∀ l ∈ ls, '\n' ∉ l) → pySplit '\n' (joinNl ls) = ls := by
  intro ls
  induction ls with
  | nil => intro h _; exact absurd rfl h
  | cons l ls ih =>
    intro _ h
    cases ls with
    | nil => exact pySplit_self (h l (by simp))
    | cons l2 ls2 =>
      have : joinNl (l :: l2 :: ls2) = l ++ '\n' :: joinNl (l2 :: ls2) := rfl
      rw [this, pySplit_append_sep (h l (by simp))]
      rw [ih (by simp) fun x hx => h x (List.mem_cons_of_mem l hx)]

theorem pySplit_flatten_nl : ∀ (ls : List Str), (∀ l ∈ ls, '\n' ∉ l) →
    pySplit '\n' ((ls.map (fun l => l ++ ['\n'])).flatten) = ls ++ [[]] := by
  intro ls
  induction ls with
  | nil => intro _; rfl
  | cons l ls ih =>
    intro h
    have : ((l :: ls).map (fun l => l ++ ['\n'])).flatten =
        l ++ '\n' :: (ls.map (fun l => l ++ ['\n'])).flatten := by
      simp
    rw [this, pySplit_append_sep (h l (by simp))]
    rw [ih fun x hx => h x (List.mem_cons_of_mem l hx)]
    rfl

/-!  ## Blank-line structure: `noTwoBlank` helpers and the
`remove_blank_lines` loop invariant -/

theorem numeric_ne_nil {l : Str} (h : isNumericLine l = true) : l ≠ [] := by
  intro hl
  rw [hl] at h
  simp [isNumericLine] at h

theorem noTwoBlank_cons_of_ne {a : Str} {rest : List Str} (ha : a ≠ [])
    (h : noTwoBlank rest = true) : noTwoBlank (a :: rest) = true := by
  cases rest with
  | nil => rfl
  | cons y r => simp [noTwoBlank, ha, h]

theorem noTwoBlank_blank_cons {y : Str} {r : List Str} (hy : y ≠ [])
    (h : noTwoBlank (y :: r) = true) : noTwoBlank ([] :: y :: r) = true := by
  simp [noTwoBlank, hy, h]

theorem noTwoBlank_tail {a : Str} {rest : List Str}
    (h : noTwoBlank (a :: rest) = true) : noTwoBlank rest = true := by
  cases rest with
  | nil => rfl
  | cons y r =>
    simp [noTwoBlank] at h
    exact h.2

theorem noTwoBlank_cons_cons (x y : Str) (r : List Str) :
    noTwoBlank (x :: y :: r) =
      ((!(decide (x = []) && decide (y = []))) && noTwoBlank (y :: r)) := rfl

theorem noTwoBlank_of_append_left :
    ∀ (l1 l2 : List Str), noTwoBlank (l1 ++ l2) = true → noTwoBlank l1 = true := by
  intro l1
  induction l1 with
  | nil => intro l2 _; rfl
  | cons x l1 ih =>
    intro l2 h
    cases hx : l1 with
    | nil => rfl
    | cons y rest =>
      subst hx
      rw [List.cons_append, List.cons_append, noTwoBlank_cons_cons,
        Bool.and_eq_true] at h
      have h2 := ih l2 (by rw [List.cons_append]; exact h.2)
      rw [noTwoBlank_cons_cons, Bool.and_eq_true]
      exact ⟨h.1, h2⟩

theorem noTwoBlank_append_blank2 :
    ∀ (init : List Str), noTwoBlank (init ++ [[], []]) = false := by
  intro init
  induction init with
  | nil => rfl
  | cons x init ih =>
    rcases hx : init ++ [[], []] with _ | ⟨y, r⟩
    · simp at hx
    · show noTwoBlank ((x :: init) ++ [[], []]) = false
      rw [List.cons_append, hx, noTwoBlank_cons_cons, ← hx, ih]
      simp

/-- In a `noTwoBlank` list ending in an empty sentinel, the part before the
sentinel does not itself end in an empty line. -/
theorem dropLast_last_ne_blank {final : List Str}
    (h : noTwoBlank (final ++ [[]]) = true)
    (hfin : final.getLast? = some []) : False := by
  have hne : final ≠ [] := by
    intro hc
    rw [hc] at hfin
    simp at hfin
  have hdecomp := List.dropLast_concat_getLast hne
  have hlast : final.getLast hne = [] := by
    have h3 := List.getLast?_eq_getLast final hne
    rw [h3] at hfin
    simpa using hfin
  rw [hlast] at hdecomp
  rw [← hdecomp, List.append_assoc] at h
  have h4 := noTwoBlank_append_blank2 final.dropLast
  rw [show ([[]] ++ [[]] : List Str) = [[], []] from rfl] at h
  rw [h4] at h
  exact Bool.false_ne_true h

/-- The invariant of the `remove_blank_lines` scanning loop: on a line list
whose only empty line is a final sentinel, the loop succeeds and produces a
nonempty list that ends with the sentinel, has no two adjacent empty lines,
and contains only input lines and inserted empty separators. -/
theorem rbLoop_spec :
    ∀ (n : Nat) (first : Bool) (ls : List Str), ls.length ≤ n →
      ls ≠ [] → ls.getLast? = some [] → (∀ x ∈ ls.dropLast, x ≠ []) →
      ∃ out, rbLoop first ls = some out ∧ out ≠ [] ∧
        out.getLast? = some [] ∧ noTwoBlank out = true ∧
        ∀ x ∈ out, x ∈ ls ∨ x = [] := by
  intro n
  induction n with
  | zero =>
    intro first ls hlen hne _ _
    rcases ls with _ | ⟨l, rest⟩
    · exact absurd rfl hne
    · simp at hlen
  | succ m ih =>
    intro first ls hlen hne hlast hdrop
    rcases ls with _ | ⟨l, rest⟩
    · exact absurd rfl hne
    rcases rest with _ | ⟨l2, rest2⟩
    · -- singleton: the line is the sentinel itself
      have hl : l = [] := by
        simp at hlast
        exact hlast
      subst hl
      refine ⟨[[]], ?_, by simp, by simp, rfl, by simp⟩
      simp [rbLoop, isNumericLine, has_timestamp, ddColonN, ddColon]
    · -- at least two lines
      have hlast2 : (l2 :: rest2).getLast? = some [] := by
        rw [← List.getLast?_cons_cons]
        exact hlast
      have hdrop2 : ∀ x ∈ (l2 :: rest2).dropLast, x ≠ [] := by
        intro x hx
        exact hdrop x (by rw [List.dropLast_cons₂]; exact List.mem_cons_of_mem l hx)
      have hlen2 : (l2 :: rest2).length ≤ m := by
        simp at hlen ⊢
        omega
      have hlne : l ≠ [] := by
        refine hdrop l ?_
        rw [List.dropLast_cons₂]
        simp
      by_cases hnum : isNumericLine l = true
      · by_cases hts : has_timestamp l2 = true
        · -- numeric identifier followed by a timestamp line: keep as a block
          have hrest2ne : rest2 ≠ [] := by
            intro hc
            subst hc
            simp at hlast2
            rw [hlast2] at hts
            simp [has_timestamp, ddColonN, ddColon] at hts
          have hlast3 : rest2.getLast? = some [] := by
            rcases rest2 with _ | ⟨r1, r2⟩
            · exact absurd rfl hrest2ne
            · rw [← List.getLast?_cons_cons]
              exact hlast2
          have hdrop3 : ∀ x ∈ rest2.dropLast, x ≠ [] := by
            intro x hx
            refine hdrop2 x ?_
            rcases rest2 with _ | ⟨r1, r2⟩
            · simp at hx
            · rw [List.dropLast_cons₂]
              exact List.mem_cons_of_mem l2 hx
          have hlen3 : rest2.length ≤ m := by
            simp at hlen
            omega
          obtain ⟨out, hout, hone, holast, hoblank, hoelem⟩ :=
            ih false rest2 hlen3 hrest2ne hlast3 hdrop3
          refine ⟨(if first then [] else [[]]) ++ l :: l2 :: out, ?_, ?_, ?_, ?_, ?_⟩
          · simp [rbLoop, hnum, hts, hout]
          · cases first <;> simp
          · rcases out with _ | ⟨o, os⟩
            · exact absurd rfl hone
            · cases first <;> simp [List.getLast?_cons_cons, holast]
          · have hb1 : noTwoBlank (l2 :: out) = true :=
              noTwoBlank_cons_of_ne (ts_ne_nil hts) hoblank
            have hb2 : noTwoBlank (l :: l2 :: out) = true :=
              noTwoBlank_cons_of_ne hlne hb1
            cases first with
            | true => simpa using hb2
            | false => simpa using noTwoBlank_blank_cons hlne hb2
          · intro x hx
            rcases List.mem_append.mp hx with hsep | hmain
            · right
              cases first <;> simp at hsep
              · exact hsep
            · rcases List.mem_cons.mp hmain with rfl | hmain2
              · left; simp
              · rcases List.mem_cons.mp hmain2 with rfl | hmain3
                · left; simp
                · rcases hoelem x hmain3 with hin | hblank
                  · left
                    simp [List.mem_cons]
                    tauto
                  · right; exact hblank
        · -- numeric line not followed by a timestamp line: copied through
          obtain ⟨out, hout, hone, holast, hoblank, hoelem⟩ :=
            ih false (l2 :: rest2) hlen2 (by simp) hlast2 hdrop2
          refine ⟨l :: out, ?_, by simp, ?_, ?_, ?_⟩
          · simp [rbLoop, hnum, hts, hout]
          · rcases out with _ | ⟨o, os⟩
            · exact absurd rfl hone
            · simp [List.getLast?_cons_cons] at holast ⊢
              exact holast
          · exact noTwoBlank_cons_of_ne hlne hoblank
          · intro x hx
            rcases List.mem_cons.mp hx with rfl | hmem
            · left; simp
            · rcases hoelem x hmem with hin | hblank
              · left; exact List.mem_cons_of_mem l hin
              · right; exact hblank
      · by_cases hts : has_timestamp l = true
        · -- a timestamp line starts a block
          obtain ⟨out, hout, hone, holast, hoblank, hoelem⟩ :=
            ih false (l2 :: rest2) hlen2 (by simp) hlast2 hdrop2
          refine ⟨(if first then [] else [[]]) ++ l :: out, ?_, ?_, ?_, ?_, ?_⟩
          · simp only [rbLoop]
            rw [if_neg (by simp [hnum]), if_pos hts, hout]
          · cases first <;> simp
          · rcases out with _ | ⟨o, os⟩
            · exact absurd rfl hone
            · cases first <;> simp [List.getLast?_cons_cons, holast]
          · have hb2 : noTwoBlank (l :: out) = true :=
              noTwoBlank_cons_of_ne hlne hoblank
            cases first with
            | true => simpa using hb2
            | false => simpa using noTwoBlank_blank_cons hlne hb2
          · intro x hx
            rcases List.mem_append.mp hx with hsep | hmain
            · right
              cases first <;> simp at hsep
              · exact hsep
            · rcases List.mem_cons.mp hmain with rfl | hmain2
              · left; simp
              · rcases hoelem x hmain2 with hin | hblank
                · left; exact List.mem_cons_of_mem l hin
                · right; exact hblank
        · -- any other line is copied through
          obtain ⟨out, hout, hone, holast, hoblank, hoelem⟩ :=
            ih false (l2 :: rest2) hlen2 (by simp) hlast2 hdrop2
          refine ⟨l :: out, ?_, by simp, ?_, ?_, ?_⟩
          · simp only [rbLoop]
            rw [if_neg (by simp [hnum]), if_neg (by simp [hts]), hout]
          · rcases out with _ | ⟨o, os⟩
            · exact absurd rfl hone
            · simp [List.getLast?_cons_cons] at holast ⊢
              exact holast
          · exact noTwoBlank_cons_of_ne hlne hoblank
          · intro x hx
            rcases List.mem_cons.mp hx with rfl | hmem
            · left; simp
            · rcases hoelem x hmem with hin | hblank
              · left; exact List.mem_cons_of_mem l hin
              · right; exact hblank

/-!  ## `remove_simple_identifiers` against its forward description -/

theorem rsGo_eq_dropStale :
    ∀ (rest : List Str) (x : Str) (racc : List Str),
      rsGo x (x :: racc) rest = some (racc.reverse ++ dropStale (x :: rest)) := by
  intro rest
  induction rest with
  | nil => intro x racc; simp [rsGo, dropStale]
  | cons y rest2 ih =>
    intro x racc
    by_cases hty : has_timestamp y = true
    · by_cases hnx : isNumericLine x = true
      · rw [rsGo, if_pos hty, if_pos hnx]
        rw [ih y racc, dropStale, if_pos (by simp [hnx, hty])]
      · rw [rsGo, if_pos hty, if_neg hnx]
        rw [ih y (x :: racc), dropStale, if_neg (by simp [hnx])]
        simp
    · rw [rsGo, if_neg hty]
      rw [ih y (x :: racc), dropStale, if_neg (by simp [hty])]
      simp

theorem rsiLines_cons {l0 : Str} {rest : List Str}
    (h : ¬(has_timestamp l0 = true ∧
      isNumericLine ((l0 :: rest).getLast (by simp)) = true)) :
    rsiLines (l0 :: rest) = some (dropStale (l0 :: rest)) := by
  rw [rsiLines]
  by_cases hts : has_timestamp l0 = true
  · have hnum : isNumericLine ((l0 :: rest).getLast (by simp)) = false := by
      rcases hx : isNumericLine ((l0 :: rest).getLast (by simp)) with _ | _
      · rfl
      · exact absurd ⟨hts, hx⟩ h
    rw [rsGo, if_pos hts, if_neg (by simp [hnum])]
    rw [rsGo_eq_dropStale rest l0 []]
    simp
  · rw [rsGo, if_neg hts]
    rw [rsGo_eq_dropStale rest l0 []]
    simp

theorem rsiLines_wrap_none {l0 : Str} {rest : List Str}
    (hts : has_timestamp l0 = true)
    (hnum : isNumericLine ((l0 :: rest).getLast (by simp)) = true) :
    rsiLines (l0 :: rest) = none := by
  rw [rsiLines, rsGo, if_pos hts, if_pos hnum]

theorem dropStale_cons_keep {a : Str} {X : List Str}
    (h : ¬(isNumericLine a = true ∧ has_timestamp X.headI = true)) :
    dropStale (a :: X) = a :: dropStale X := by
  cases X with
  | nil => rfl
  | cons y r =>
    rw [dropStale, if_neg]
    intro hc
    simp at hc
    exact h ⟨hc.1, by simpa [List.headI] using hc.2⟩

theorem dropStale_ne_nil : ∀ (y : Str) (rest : List Str),
    dropStale (y :: rest) ≠ [] := by
  intro y rest
  induction rest generalizing y with
  | nil => simp [dropStale]
  | cons z r ih =>
    rw [dropStale]
    by_cases hc : isNumericLine y && has_timestamp z
    · rw [if_pos hc]; exact ih z
    · rw [if_neg hc]; simp

theorem dropStale_headI : ∀ (y : Str) (rest : List Str),
    (dropStale (y :: rest)).headI = y ∨
      has_timestamp ((dropStale (y :: rest)).headI) = true := by
  intro y rest
  induction rest generalizing y with
  | nil => left; simp [dropStale]
  | cons z r ih =>
    rw [dropStale]
    by_cases hc : isNumericLine y && has_timestamp z
    · rw [if_pos hc]
      rcases ih z with h1 | h2
      · right
        rw [h1]
        exact (Bool.and_eq_true _ _).mp hc |>.2
      · right; exact h2
    · rw [if_neg hc]; left; simp

theorem dropStale_getLast? : ∀ (ls : List Str),
    (dropStale ls).getLast? = ls.getLast? := by
  intro ls
  rcases ls with _ | ⟨y, rest⟩
  · rfl
  induction rest generalizing y with
  | nil => rfl
  | cons z r ih =>
    rw [dropStale]
    by_cases hc : isNumericLine y && has_timestamp z
    · rw [if_pos hc, ih z, List.getLast?_cons_cons]
    · rw [if_neg hc]
      have h2 := dropStale_ne_nil z r
      rcases hd : dropStale (z :: r) with _ | ⟨w, ws⟩
      · exact absurd hd h2
      · rw [List.getLast?_cons_cons, ← hd, ih z, List.getLast?_cons_cons]

theorem dropStale_subset : ∀ (ls : List Str) (x : Str),
    x ∈ dropStale ls → x ∈ ls := by
  intro ls
  rcases ls with _ | ⟨y, rest⟩
  · intro x hx; exact hx
  induction rest generalizing y with
  | nil => intro x hx; exact hx
  | cons z r ih =>
    intro x hx
    rw [dropStale] at hx
    by_cases hc : isNumericLine y && has_timestamp z
    · rw [if_pos hc] at hx
      exact List.mem_cons_of_mem y (ih z x hx)
    · rw [if_neg hc] at hx
      rcases List.mem_cons.mp hx with rfl | hmem
      · simp
      · exact List.mem_cons_of_mem y (ih z x hmem)

theorem noTwoBlank_dropStale : ∀ (ls : List Str),
    noTwoBlank ls = true → noTwoBlank (dropStale ls) = true := by
  intro ls
  rcases ls with _ | ⟨y, rest⟩
  · intro h; exact h
  induction rest generalizing y with
  | nil => intro h; exact h
  | cons z r ih =>
    intro h
    rw [dropStale]
    by_cases hc : isNumericLine y && has_timestamp z
    · rw [if_pos hc]
      exact ih z (noTwoBlank_tail h)
    · rw [if_neg hc]
      have h2 := ih z (noTwoBlank_tail h)
      by_cases hy : y = []
      · subst hy
        have hz : z ≠ [] := by
          rw [noTwoBlank_cons_cons, Bool.and_eq_true] at h
          intro hc2
          subst hc2
          simp at h
        rcases hd : dropStale (z :: r) with _ | ⟨w, ws⟩
        · exact absurd hd (dropStale_ne_nil z r)
        · rcases dropStale_headI z r with hh | hh
          · rw [hd] at hh
            simp [List.headI] at hh
            subst hh
            rw [hd] at h2
            exact noTwoBlank_blank_cons hz h2
          · rw [hd] at hh h2
            simp [List.headI] at hh
            exact noTwoBlank_blank_cons (ts_ne_nil hh) h2
      · exact noTwoBlank_cons_of_ne hy h2

theorem addSeq_headI_ts {i : Nat} {X : List Str}
    (h : has_timestamp ((addSeqLines i X).headI) = true) :
    has_timestamp X.headI = true ∧ (addSeqLines i X).headI = X.headI := by
  rcases X with _ | ⟨x, xs⟩
  · rw [show addSeqLines i ([] : List Str) = [] from rfl] at h
    exact absurd h (by decide)
  · by_cases hx : has_timestamp x = true
    · rw [addSeqLines, if_pos hx] at h
      simp [List.headI, natStr_not_ts] at h
    · rw [addSeqLines, if_neg hx] at h ⊢
      simp [List.headI] at h ⊢
      exact h

theorem addSeq_headI_nil {i : Nat} {X : List Str}
    (h : (addSeqLines i X).headI = []) : X.headI = [] := by
  rcases X with _ | ⟨x, xs⟩
  · rfl
  · by_cases hx : has_timestamp x = true
    · rw [addSeqLines, if_pos hx] at h
      simp [List.headI] at h
      exact absurd h (natStr_ne_nil i)
    · rw [addSeqLines, if_neg hx] at h
      simpa [List.headI] using h

theorem addSeq_headI_not_ts (i : Nat) (ls : List Str) :
    has_timestamp ((addSeqLines i ls).headI) = true →
      (addSeqLines i ls).headI = ls.headI ∧ has_timestamp ls.headI = true :=
  fun h => ⟨(addSeq_headI_ts h).2, (addSeq_headI_ts h).1⟩

theorem noTwoBlank_addSeq : ∀ (ls : List Str) (i : Nat),
    noTwoBlank ls = true → noTwoBlank (addSeqLines i ls) = true := by
  intro ls
  induction ls with
  | nil => intro i _; rfl
  | cons l ls ih =>
    intro i h
    by_cases hl : has_timestamp l = true
    · rw [addSeqLines, if_pos hl]
      have h2 : noTwoBlank (l :: addSeqLines (i + 1) ls) = true := by
        refine noTwoBlank_cons_of_ne (ts_ne_nil hl) (ih (i + 1) (noTwoBlank_tail h))
      exact noTwoBlank_cons_of_ne (natStr_ne_nil i) h2
    · rw [addSeqLines, if_neg hl]
      have h2 := ih i (noTwoBlank_tail h)
      by_cases hnil : l = []
      · subst hnil
        rcases hd : addSeqLines i ls with _ | ⟨w, ws⟩
        · rfl
        · have hw : w ≠ [] := by
            intro hc
            subst hc
            have := addSeq_headI_nil (i := i) (X := ls) (by rw [hd]; rfl)
            rcases ls with _ | ⟨z, zs⟩
            · simp [addSeqLines] at hd
            · simp [List.headI] at this
              subst this
              rw [noTwoBlank_cons_cons, Bool.and_eq_true] at h
              simp at h
          rw [hd] at h2
          exact noTwoBlank_blank_cons hw h2
      · exact noTwoBlank_cons_of_ne hnil h2

theorem addSeq_getLast? : ∀ (ls : List Str) (i : Nat), ls ≠ [] →
    (addSeqLines i ls).getLast? = ls.getLast? := by
  intro ls
  induction ls with
  | nil => intro i h; exact absurd rfl h
  | cons l ls ih =>
    intro i _
    rcases hx : ls with _ | ⟨z, zs⟩
    · by_cases hl : has_timestamp l = true
      · rw [addSeqLines, if_pos hl]
        simp [addSeqLines]
      · rw [addSeqLines, if_neg hl]
        simp [addSeqLines]
    · subst hx
      by_cases hl : has_timestamp l = true
      · rw [addSeqLines, if_pos hl]
        have h2 := ih (i + 1) (by simp)
        rcases hd : addSeqLines (i + 1) (z :: zs) with _ | ⟨w, ws⟩
        · simp [addSeqLines] at hd
          by_cases hz : has_timestamp z = true <;> simp [hz] at hd
        · simp only [List.getLast?_cons_cons]
          rw [hd] at h2
          exact h2
      · rw [addSeqLines, if_neg hl]
        have h2 := ih i (by simp)
        rcases hd : addSeqLines i (z :: zs) with _ | ⟨w, ws⟩
        · simp [addSeqLines] at hd
          by_cases hz : has_timestamp z = true <;> simp [hz] at hd
        · simp only [List.getLast?_cons_cons]
          rw [hd] at h2
          exact h2

theorem natStr_no_nl (n : Nat) : '\n' ∉ natStr n := by
  intro hmem
  have := natStr_digits n '\n' hmem
  simp at this

theorem addSeq_no_nl : ∀ (ls : List Str) (i : Nat),
    (∀ l ∈ ls, '\n' ∉ l) → ∀ l ∈ addSeqLines i ls, '\n' ∉ l := by
  intro ls
  induction ls with
  | nil => intro i _ l hl; simp [addSeqLines] at hl
  | cons x xs ih =>
    intro i h l hl
    by_cases hx : has_timestamp x = true
    · rw [addSeqLines, if_pos hx] at hl
      rcases List.mem_cons.mp hl with rfl | hl2
      · exact natStr_no_nl i
      · rcases List.mem_cons.mp hl2 with rfl | hl3
        · exact h l (by simp)
        · exact ih (i + 1) (fun y hy => h y (List.mem_cons_of_mem x hy)) l hl3
    · rw [addSeqLines, if_neg hx] at hl
      rcases List.mem_cons.mp hl with rfl | hl2
      · exact h l (by simp)
      · exact ih i (fun y hy => h y (List.mem_cons_of_mem x hy)) l hl2

/-- Dropping stale identifiers undoes sequence-number insertion: on a line
list with no bare numeric line directly before a timestamp line, removing
every numeric line directly before a timestamp line from the freshly
numbered list recovers the original list. -/
theorem dropStale_addSeq : ∀ (ls : List Str), noStale ls →
    ∀ i, dropStale (addSeqLines i ls) = ls := by
  intro ls
  induction ls with
  | nil => intro _ i; rfl
  | cons l ls ih =>
    intro h i
    have hns : noStale ls := by
      rcases ls with _ | ⟨z, zs⟩
      · trivial
      · exact h.2
    by_cases hl : has_timestamp l = true
    · rw [addSeqLines, if_pos hl]
      rw [dropStale, if_pos (by simp [natStr_numeric, hl])]
      rw [dropStale_cons_keep (by simp [ts_not_numeric hl])]
      rw [ih hns (i + 1)]
    · rw [addSeqLines, if_neg hl]
      rw [dropStale_cons_keep (by
        intro hc
        obtain ⟨h1, h2⟩ := hc
        obtain ⟨hts2, heq⟩ := addSeq_headI_ts h2
        rcases hx : ls with _ | ⟨z, zs⟩
        · rw [hx] at hts2
          simp [List.headI, has_timestamp, ddColonN, ddColon] at hts2
        · rw [hx] at hts2
          rw [hx] at h
          exact absurd ⟨h1, by simpa [List.headI] using hts2⟩ h.1)]
      rw [ih hns i]

/-!  ## The output path computation of `process` -/

theorem vtt_chars : ofS ".vtt" = ['.', 'v', 't', 't'] := rfl

theorem srt_chars : ofS ".srt" = ['.', 's', 'r', 't'] := rfl

/-- When the stem contains no occurrence of `.vtt`, appending `.vtt` cannot
create an occurrence that starts inside the stem (no nonempty proper suffix
of `.vtt` is also a prefix of it), so `replace` rewrites exactly the
suffix. -/
theorem pyReplaceGo_stem :
    ∀ (stem : Str), containsSeq (ofS ".vtt") stem = false →
      pyReplaceGo (ofS ".vtt") (ofS ".srt") (stem ++ ofS ".vtt").length
        (stem ++ ofS ".vtt") = stem ++ ofS ".srt" := by
  intro stem
  induction stem with
  | nil => intro _; decide
  | cons c stem ih =>
    intro h
    rw [containsSeq] at h
    have hparts := (Bool.or_eq_false_iff).mp h
    have hnp : List.isPrefixOf (ofS ".vtt") (c :: (stem ++ ofS ".vtt")) = false := by
      rcases stem with _ | ⟨a, _ | ⟨b, _ | ⟨d, rest⟩⟩⟩
      · simp [vtt_chars, List.isPrefixOf]
      · simp [vtt_chars, List.isPrefixOf]
      · simp [vtt_chars, List.isPrefixOf]
      · have hfirst := hparts.1
        simp only [vtt_chars, List.isPrefixOf, List.cons_append] at hfirst ⊢
        exact hfirst
    simp only [List.cons_append, List.length_cons]
    rw [pyReplaceGo]
    rw [if_neg (by rw [hnp]; simp)]
    rw [ih hparts.2]

theorem processOutputPath_suffix {stem : Str}
    (h : containsSeq (ofS ".vtt") stem = false) :
    processOutputPath (stem ++ ofS ".vtt") = stem ++ ofS ".srt" := by
  rw [processOutputPath, pyReplace]
  exact pyReplaceGo_stem stem h

/-!  ## The gap part of the conversion invariant -/

theorem noTwoBlank_get :
    ∀ (ls : List Str) (i : Nat), noTwoBlank ls = true →
      ls.get? i = some [] → ls.get? (i + 1) = some [] → False := by
  intro ls
  induction ls with
  | nil => intro i _ h1 _; simp at h1
  | cons x rest ih =>
    intro i h h1 h2
    cases i with
    | zero =>
      cases rest with
      | nil => simp at h2
      | cons y r =>
        simp at h1 h2
        subst h1
        subst h2
        rw [noTwoBlank_cons_cons] at h
        simp at h
    | succ j =>
      exact ih j (noTwoBlank_tail h) (by simpa using h1) (by simpa using h2)

theorem gapOk_of_noTwoBlank {ls : List Str} (h : noTwoBlank ls = true) :
    gapOk ls := by
  intro i _ h1 h2 _
  exact noTwoBlank_get ls i h h1 h2

theorem gapOk_of_no_ts {ls : List Str}
    (h : ∀ l ∈ ls, has_timestamp l = false) : gapOk ls := by
  intro i _ _ _ hcontra
  obtain ⟨⟨j, _, l, hl, hts⟩, _⟩ := hcontra
  have hmem : l ∈ ls := List.get?_mem hl
  rw [h l hmem] at hts
  exact Bool.false_ne_true hts

theorem noTwoBlank_concat_blank :
    ∀ (L : List Str), noTwoBlank L = true →
      (L.getLast? = some [] → False) → noTwoBlank (L ++ [[]]) = true := by
  intro L
  induction L with
  | nil => intro _ _; rfl
  | cons x rest ih =>
    intro h hl
    cases rest with
    | nil =>
      have hx : x ≠ [] := by
        intro hc
        exact hl (by simp [hc])
      simp [noTwoBlank_cons_cons, noTwoBlank, hx]
    | cons y r =>
      rw [noTwoBlank_cons_cons, Bool.and_eq_true] at h
      have h2 := ih h.2 (by
        intro hc
        exact hl (by simpa [List.getLast?_cons_cons] using hc))
      simp only [List.cons_append]
      rw [noTwoBlank_cons_cons, Bool.and_eq_true]
      exact ⟨h.1, by simpa [List.cons_append] using h2⟩

/-!  ## `remove_blank_lines`: success and output structure -/

theorem remove_blank_lines_spec (s : Str) :
    ∃ final : List Str, remove_blank_lines s = some (joinNl final) ∧
      noTwoBlank final = true ∧
      (final.getLast? = some [] → False) ∧
      (∀ l ∈ final, '\n' ∉ l) := by
  rw [remove_blank_lines]
  have hlines :
      ((pySplit '\n' s).filter (fun x => x ≠ []) ++ [[]]).getLast? = some [] :=
    List.getLast?_concat _
  have hdrop :
      ∀ x ∈ ((pySplit '\n' s).filter (fun x => x ≠ []) ++ [[]]).dropLast,
        x ≠ [] := by
    intro x hx
    rw [List.dropLast_concat] at hx
    have := List.mem_filter.mp hx
    simpa using this.2
  obtain ⟨out, hout, hone, holast, hoblank, hoelem⟩ :=
    rbLoop_spec ((pySplit '\n' s).filter (fun x => x ≠ []) ++ [[]]).length
      true _ (Nat.le_refl _) (by simp) hlines hdrop
  refine ⟨out.dropLast, ?_, ?_, ?_, ?_⟩
  · simp only [hout]
    rw [if_neg (by simpa using hone)]
  · have hdecomp := List.dropLast_concat_getLast hone
    rw [← hdecomp] at hoblank
    exact noTwoBlank_of_append_left _ _ hoblank
  · intro hfin
    have hdecomp := List.dropLast_concat_getLast hone
    have hlastval : out.getLast hone = [] := by
      have h3 := List.getLast?_eq_getLast out hone
      rw [h3] at holast
      simpa using holast
    rw [← hdecomp, hlastval] at hoblank
    exact dropLast_last_ne_blank hoblank hfin
  · intro l hl
    have hmem : l ∈ out := List.dropLast_subset out hl
    rcases hoelem l hmem with hin | hblank
    · rcases List.mem_append.mp hin with hfilt | hsent
      · have := List.mem_filter.mp hfilt
        exact pySplit_no_sep '\n' s l this.1
      · simp at hsent
        simp [hsent]
    · simp [hblank]

theorem addSeq_cons_head (i : Nat) (l : Str) (ls : List Str) :
    ∃ a0 arest, addSeqLines i (l :: ls) = a0 :: arest ∧
      has_timestamp a0 = false := by
  by_cases hl : has_timestamp l = true
  · exact ⟨natStr i, l :: addSeqLines (i + 1) ls, by simp [addSeqLines, hl],
      natStr_not_ts i⟩
  · exact ⟨l, addSeqLines i ls, by simp [addSeqLines, hl], by simpa using hl⟩

/-!  ## Claims -/

/-- C4: the sequence numbers emitted by `add_sequence_numbers` are exactly
`1, 2, 3, …` in line order — the output is the input's line list with the
numbers `List.range' 1 k` (that is, `[1, …, k]`, contiguous from 1 with no
gap or repetition, for `k` the number of recognized Cue Timestamp Lines,
including `k = 0`) woven in, one immediately before each recognized
timestamp line, every other line passing through unchanged and in order,
and each emitted line terminated by a newline. -/
theorem claim_C4 (c : Str) :
    add_sequence_numbers c =
      ((weave (pySplit '\n' c)
          (List.range' 1 (countTs (pySplit '\n' c)))).map
        (fun l => l ++ ['\n'])).flatten := by
  rw [add_sequence_numbers_eq, addSeqLines_eq_weave]

/-- C6: re-running the second variant's numbering stages on their own output
is stable.  `remove_simple_identifiers` drops exactly the bare numeric lines
sitting directly before a timestamp line — in particular all previously
inserted sequence numbers — so on any stale-free line list `ls`, stripping
the numbered list recovers `ls`, renumbering it reproduces the numbered list
(no stale identifiers accumulate or collide), and the full second-variant
`convert_content` is idempotent on a concrete converted document. -/
theorem claim_C6 :
    (∀ ls : List Str, noStale ls →
      rsiLines (addSeqLines 1 ls) = some ls ∧
      Option.map (addSeqLines 1) (rsiLines (addSeqLines 1 ls)) =
        some (addSeqLines 1 ls)) ∧
    convert_content_2
        (ofS "1\n00:00:00,000 --> 00:00:01,000\na\n\n2\n00:00:02,000 --> 00:00:03,000\nb\n") =
      some (ofS "1\n00:00:00,000 --> 00:00:01,000\na\n\n2\n00:00:02,000 --> 00:00:03,000\nb\n") := by
  constructor
  · intro ls h
    have hmain : rsiLines (addSeqLines 1 ls) = some ls := by
      cases ls with
      | nil => rfl
      | cons l ls2 =>
        obtain ⟨a0, arest, heq, hts⟩ := addSeq_cons_head 1 l ls2
        rw [heq, rsiLines_cons (by simp [hts]), ← heq,
          dropStale_addSeq _ h 1]
    exact ⟨hmain, by rw [hmain]; rfl⟩
  · decide

/-- C10: `remove_blank_lines` is total: the appended empty sentinel keeps
the numeric-line look-ahead in bounds (an empty line is never numeric, so a
numeric line is never last), the scan terminates, and the final `pop` acts
on a nonempty list, so the function returns a result on every input. -/
theorem claim_C10 (s : Str) : (remove_blank_lines s).isSome = true := by
  obtain ⟨final, hrbl, _, _, _⟩ := remove_blank_lines_spec s
  rw [hrbl]
  rfl

theorem claim_C6_witness :
    rsiLines (addSeqLines 1 [ofS "hello"]) = some [ofS "hello"] ∧
    Option.map (addSeqLines 1) (rsiLines (addSeqLines 1 [ofS "hello"])) =
      some (addSeqLines 1 [ofS "hello"]) :=
  claim_C6.1 [ofS "hello"] trivial

/-- C5 fails as stated for the first implementation: its `convert_content`
has no blank-line normalization, so a document whose cues are separated by
three empty lines keeps all three, violating the claimed invariant that no
two consecutive cues are separated by more than one empty line. -/
theorem claim_C5_counterexample :
    srtInvariant (convert_content
      (ofS "00:00.000 --> 00:01.000\na\n\n\n\n00:02.000 --> 00:03.000\nb\n")) =
      false := by
  decide

/-- C5 (amended): for the second implementation's `convert_content`, on
every input on which it returns, each recognized Cue Timestamp Line of the
output is immediately preceded by exactly one line holding its sequence
number and nothing else, and no two adjacent empty lines sit between two
timestamp lines (no two consecutive cues are separated by more than one
empty line).  The first implementation guarantees only the numbering part
(see the counterexample). -/
theorem claim_C5 (s out : Str) (h : convert_content_2 s = some out) :
    numberedFrom none 1 (pySplit '\n' out) = true ∧ gapOk (pySplit '\n' out) := by
  rw [convert_content_2] at h
  obtain ⟨final, hrbl, hblank, hlast, hnl⟩ :=
    remove_blank_lines_spec (stripMarkup (convert_header (convert_timestamp s)))
  simp only [hrbl] at h
  by_cases hfe : final = []
  · subst hfe
    have hval : remove_simple_identifiers (joinNl ([] : List Str)) =
        some [] := by decide
    simp only [hval] at h
    have hinj : add_sequence_numbers [] = out := by
      injection h with h2
    rw [← hinj]
    constructor
    · decide
    · refine gapOk_of_no_ts ?_
      intro l hl
      have : pySplit '\n' (add_sequence_numbers []) = [[], []] := by decide
      rw [this] at hl
      rcases List.mem_cons.mp hl with rfl | hl2
      · decide
      · simp at hl2
        subst hl2
        decide
  · have hsplit : pySplit '\n' (joinNl final) = final :=
      pySplit_joinNl final hfe hnl
    rw [remove_simple_identifiers, hsplit] at h
    rcases hx : final with _ | ⟨f0, frest⟩
    · exact absurd hx hfe
    rcases hrsi : rsiLines final with _ | res
    · rw [hx] at hrsi
      rw [hx, hrsi] at h
      simp at h
    · rw [hx] at hrsi
      rw [hx, hrsi] at h
      simp only [] at h
      have hout : add_sequence_numbers (joinNl res) = out := by
        injection h with h2
      have hnw : ¬(has_timestamp f0 = true ∧
          isNumericLine ((f0 :: frest).getLast (by simp)) = true) := by
        intro hc
        rw [rsiLines_wrap_none hc.1 hc.2] at hrsi
        cases hrsi
      have hres : res = dropStale (f0 :: frest) :=
        (Option.some.inj ((rsiLines_cons hnw).symm.trans hrsi)).symm
      have hblank2 : noTwoBlank res = true := by
        rw [hres]
        exact noTwoBlank_dropStale (f0 :: frest) (hx ▸ hblank)
      have hresne : res ≠ [] := by
        rw [hres]
        exact dropStale_ne_nil f0 frest
      have hreslast : res.getLast? = some [] → False := by
        intro hc
        rw [hres, dropStale_getLast?] at hc
        exact hlast (hx ▸ hc)
      have hresnl : ∀ l ∈ res, '\n' ∉ l := by
        intro l hl
        refine hnl l ?_
        rw [hx]
        exact dropStale_subset (f0 :: frest) l (hres ▸ hl)
      have hsplit2 : pySplit '\n' (joinNl res) = res :=
        pySplit_joinNl res hresne hresnl
      have houtsplit : pySplit '\n' out = addSeqLines 1 res ++ [[]] := by
        rw [← hout, add_sequence_numbers_eq, hsplit2]
        exact pySplit_flatten_nl (addSeqLines 1 res) (addSeq_no_nl res 1 hresnl)
      constructor
      · rw [houtsplit]
        exact numberedFrom_addSeq res 1 none [[]] (by
          intro l hl
          simp at hl
          subst hl
          decide)
      · rw [houtsplit]
        refine gapOk_of_noTwoBlank ?_
        refine noTwoBlank_concat_blank _ (noTwoBlank_addSeq res 1 hblank2) ?_
        intro hc
        rw [addSeq_getLast? res 1 hresne] at hc
        exact hreslast hc

theorem claim_C5_witness :
    convert_content_2 (ofS "WEBVTT\n\n00:00.000 --> 00:02.500\nHello\n") =
      some (ofS "1\n00:00:00,000 --> 00:00:02,500\nHello\n") ∧
    (numberedFrom none 1
        (pySplit '\n' (ofS "1\n00:00:00,000 --> 00:00:02,500\nHello\n")) = true ∧
      gapOk (pySplit '\n' (ofS "1\n00:00:00,000 --> 00:00:02,500\nHello\n"))) :=
  ⟨by decide, claim_C5 (ofS "WEBVTT\n\n00:00.000 --> 00:02.500\nHello\n")
    (ofS "1\n00:00:00,000 --> 00:00:02,500\nHello\n") (by decide)⟩

/-- C1: every full-shape timestamp line `HH:MM:SS.mmm --> HH:MM:SS.mmm`,
optionally followed by well-formed cue-settings text, is rewritten by
`convert_timestamp` to the same digits with the millisecond separator
changed from `.` to `,`, the arrow kept, and the cue-settings text removed;
in particular the line `01:02:03.004 --> 01:02:05.006 align:start` becomes
`01:02:03,004 --> 01:02:05,006`. -/
theorem claim_C1 :
    (∀ (h1 h2 m1 m2 s1 s2 e1 e2 e3 H1 H2 M1 M2 S1 S2 f1 f2 f3 : Char)
       (ts : List (Str × Str)),
      isDigitCh h1 = true → isDigitCh h2 = true →
      isDigitCh m1 = true → isDigitCh m2 = true →
      isDigitCh s1 = true → isDigitCh s2 = true →
      isDigitCh e1 = true → isDigitCh e2 = true → isDigitCh e3 = true →
      isDigitCh H1 = true → isDigitCh H2 = true →
      isDigitCh M1 = true → isDigitCh M2 = true →
      isDigitCh S1 = true → isDigitCh S2 = true →
      isDigitCh f1 = true → isDigitCh f2 = true → isDigitCh f3 = true →
      wfSettings ts →
      convert_timestamp
        ([h1, h2, ':', m1, m2, ':', s1, s2] ++ '.' :: [e1, e2, e3] ++
          arrowChars ++ [H1, H2, ':', M1, M2, ':', S1, S2] ++ '.' ::
          [f1, f2, f3] ++ renderSettings ts ++ ['\n']) =
        [h1, h2, ':', m1, m2, ':', s1, s2] ++ ',' :: [e1, e2, e3] ++
          arrowChars ++ [H1, H2, ':', M1, M2, ':', S1, S2] ++ ',' ::
          [f1, f2, f3] ++ ['\n']) ∧
    convert_timestamp (ofS "01:02:03.004 --> 01:02:05.006 align:start\n") =
      ofS "01:02:03,004 --> 01:02:05,006\n" := by
  constructor
  · intro h1 h2 m1 m2 s1 s2 e1 e2 e3 H1 H2 M1 M2 S1 S2 f1 f2 f3 ts
    intro dh1 dh2 dm1 dm2 ds1 ds2 de1 de2 de3 dH1 dH2 dM1 dM2 dS1 dS2
    intro df1 df2 df3 hw
    exact convert_timestamp_full dh1 dh2 dm1 dm2 ds1 ds2 de1 de2 de3
      dH1 dH2 dM1 dM2 dS1 dS2 df1 df2 df3 hw
  · decide

theorem claim_C1_witness :
    convert_timestamp
      (['0', '1', ':', '0', '2', ':', '0', '3'] ++ '.' :: ['0', '0', '4'] ++
        arrowChars ++ ['0', '1', ':', '0', '2', ':', '0', '5'] ++ '.' ::
        ['0', '0', '6'] ++
        renderSettings [([' ', 'l', 'i', 'n', 'e'], ['0', '%'])] ++ ['\n']) =
      ['0', '1', ':', '0', '2', ':', '0', '3'] ++ ',' :: ['0', '0', '4'] ++
        arrowChars ++ ['0', '1', ':', '0', '2', ':', '0', '5'] ++ ',' ::
        ['0', '0', '6'] ++ ['\n'] :=
  claim_C1.1 '0' '1' '0' '2' '0' '3' '0' '0' '4' '0' '1' '0' '2' '0' '5'
    '0' '0' '6' [([' ', 'l', 'i', 'n', 'e'], ['0', '%'])]
    (by decide) (by decide) (by decide) (by decide) (by decide) (by decide)
    (by decide) (by decide) (by decide) (by decide) (by decide) (by decide)
    (by decide) (by decide) (by decide) (by decide) (by decide) (by decide)
    ⟨by decide, by decide, by decide, by decide⟩

/-- C2: a timestamp line with both sides in `MM:SS.mmm` shape comes out with
hour `00` on both sides, and a line with both sides in `SS.mmm` shape comes
out as `00:00:SS,mmm --> 00:00:SS,mmm`; in particular converting the
document `WEBVTT\n\n00:00.000 --> 00:02.500\nHello\n` produces output that
contains `1\n00:00:00,000 --> 00:00:02,500\nHello\n` and no `WEBVTT`. -/
theorem claim_C2 :
    (∀ (m1 m2 s1 s2 e1 e2 e3 M1 M2 S1 S2 f1 f2 f3 : Char),
      isDigitCh m1 = true → isDigitCh m2 = true →
      isDigitCh s1 = true → isDigitCh s2 = true →
      isDigitCh e1 = true → isDigitCh e2 = true → isDigitCh e3 = true →
      isDigitCh M1 = true → isDigitCh M2 = true →
      isDigitCh S1 = true → isDigitCh S2 = true →
      isDigitCh f1 = true → isDigitCh f2 = true → isDigitCh f3 = true →
      convert_timestamp
        ([m1, m2, ':', s1, s2] ++ '.' :: [e1, e2, e3] ++ arrowChars ++
          [M1, M2, ':', S1, S2] ++ '.' :: [f1, f2, f3] ++ ['\n']) =
        ['0', '0', ':', m1, m2, ':', s1, s2] ++ ',' :: [e1, e2, e3] ++
          arrowChars ++ ['0', '0', ':', M1, M2, ':', S1, S2] ++ ',' ::
          [f1, f2, f3] ++ ['\n']) ∧
    (∀ (s1 s2 e1 e2 e3 S1 S2 f1 f2 f3 : Char),
      isDigitCh s1 = true → isDigitCh s2 = true →
      isDigitCh e1 = true → isDigitCh e2 = true → isDigitCh e3 = true →
      isDigitCh S1 = true → isDigitCh S2 = true →
      isDigitCh f1 = true → isDigitCh f2 = true → isDigitCh f3 = true →
      convert_timestamp
        ([s1, s2] ++ '.' :: [e1, e2, e3] ++ arrowChars ++
          [S1, S2] ++ '.' :: [f1, f2, f3] ++ ['\n']) =
        ['0', '0', ':', '0', '0', ':', s1, s2] ++ ',' :: [e1, e2, e3] ++
          arrowChars ++ ['0', '0', ':', '0', '0', ':', S1, S2] ++ ',' ::
          [f1, f2, f3] ++ ['\n']) ∧
    containsSeq (ofS "1\n00:00:00,000 --> 00:00:02,500\nHello\n")
      (convert_content (ofS "WEBVTT\n\n00:00.000 --> 00:02.500\nHello\n")) =
      true ∧
    containsSeq (ofS "WEBVTT")
      (convert_content (ofS "WEBVTT\n\n00:00.000 --> 00:02.500\nHello\n")) =
      false := by
  refine ⟨?_, ?_, by decide, by decide⟩
  · intro m1 m2 s1 s2 e1 e2 e3 M1 M2 S1 S2 f1 f2 f3
    intro dm1 dm2 ds1 ds2 de1 de2 de3 dM1 dM2 dS1 dS2 df1 df2 df3
    exact convert_timestamp_mm dm1 dm2 ds1 ds2 de1 de2 de3
      dM1 dM2 dS1 dS2 df1 df2 df3
  · intro s1 s2 e1 e2 e3 S1 S2 f1 f2 f3
    intro ds1 ds2 de1 de2 de3 dS1 dS2 df1 df2 df3
    exact convert_timestamp_ss ds1 ds2 de1 de2 de3 dS1 dS2 df1 df2 df3

theorem claim_C2_witness :
    convert_timestamp
      (['0', '2', ':', '0', '3'] ++ '.' :: ['0', '0', '4'] ++ arrowChars ++
        ['0', '2', ':', '0', '5'] ++ '.' :: ['0', '0', '6'] ++ ['\n']) =
      ['0', '0', ':', '0', '2', ':', '0', '3'] ++ ',' :: ['0', '0', '4'] ++
        arrowChars ++ ['0', '0', ':', '0', '2', ':', '0', '5'] ++ ',' ::
        ['0', '0', '6'] ++ ['\n'] ∧
    convert_timestamp
      (['0', '3'] ++ '.' :: ['0', '0', '4'] ++ arrowChars ++
        ['0', '5'] ++ '.' :: ['0', '0', '6'] ++ ['\n']) =
      ['0', '0', ':', '0', '0', ':', '0', '3'] ++ ',' :: ['0', '0', '4'] ++
        arrowChars ++ ['0', '0', ':', '0', '0', ':', '0', '5'] ++ ',' ::
        ['0', '0', '6'] ++ ['\n'] :=
  ⟨claim_C2.1 '0' '2' '0' '3' '0' '0' '4' '0' '2' '0' '5' '0' '0' '6'
    (by decide) (by decide) (by decide) (by decide) (by decide) (by decide)
    (by decide) (by decide) (by decide) (by decide) (by decide) (by decide)
    (by decide) (by decide),
   claim_C2.2.1 '0' '3' '0' '0' '4' '0' '5' '0' '0' '6'
    (by decide) (by decide) (by decide) (by decide) (by decide) (by decide)
    (by decide) (by decide) (by decide) (by decide)⟩

/-- C3 fails as stated: the two padding rewrites require BOTH sides of the
arrow to have the same shortened shape, so a line whose left side is
`MM:SS,mmm` while the right side is full `HH:MM:SS,mmm` is left with its
short side unpadded instead of being brought to full form. -/
theorem claim_C3_counterexample :
    convert_timestamp (ofS "02:03.004 --> 01:02:05.006\n") =
      ofS "02:03,004 --> 01:02:05,006\n" ∧
    ofS "02:03,004 --> 01:02:05,006\n" ≠
      ofS "00:02:03,004 --> 01:02:05,006\n" := by
  exact ⟨by decide, by decide⟩

/-- C3 (amended): padding is not per side.  `add_padding_to_timestamp`
rewrites a line only when both sides share the same shortened shape; on a
mixed line (left `MM:SS`, right `HH:MM:SS`) only the separator swap happens
and the short left side stays unpadded. -/
theorem claim_C3 (m1 m2 s1 s2 e1 e2 e3 H1 H2 M1 M2 S1 S2 f1 f2 f3 : Char)
    (dm1 : isDigitCh m1 = true) (dm2 : isDigitCh m2 = true)
    (ds1 : isDigitCh s1 = true) (ds2 : isDigitCh s2 = true)
    (de1 : isDigitCh e1 = true) (de2 : isDigitCh e2 = true)
    (de3 : isDigitCh e3 = true)
    (dH1 : isDigitCh H1 = true) (dH2 : isDigitCh H2 = true)
    (dM1 : isDigitCh M1 = true) (dM2 : isDigitCh M2 = true)
    (dS1 : isDigitCh S1 = true) (dS2 : isDigitCh S2 = true)
    (df1 : isDigitCh f1 = true) (df2 : isDigitCh f2 = true)
    (df3 : isDigitCh f3 = true) :
    convert_timestamp
      ([m1, m2, ':', s1, s2] ++ '.' :: [e1, e2, e3] ++ arrowChars ++
        [H1, H2, ':', M1, M2, ':', S1, S2] ++ '.' :: [f1, f2, f3] ++ ['\n']) =
      [m1, m2, ':', s1, s2] ++ ',' :: [e1, e2, e3] ++ arrowChars ++
        [H1, H2, ':', M1, M2, ':', S1, S2] ++ ',' :: [f1, f2, f3] ++ ['\n'] :=
  convert_timestamp_mixed dm1 dm2 ds1 ds2 de1 de2 de3
    dH1 dH2 dM1 dM2 dS1 dS2 df1 df2 df3

theorem claim_C3_witness :
    convert_timestamp
      (['0', '2', ':', '0', '3'] ++ '.' :: ['0', '0', '4'] ++ arrowChars ++
        ['0', '1', ':', '0', '2', ':', '0', '5'] ++ '.' :: ['0', '0', '6'] ++
        ['\n']) =
      ['0', '2', ':', '0', '3'] ++ ',' :: ['0', '0', '4'] ++ arrowChars ++
        ['0', '1', ':', '0', '2', ':', '0', '5'] ++ ',' :: ['0', '0', '6'] ++
        ['\n'] :=
  claim_C3 '0' '2' '0' '3' '0' '0' '4' '0' '1' '0' '2' '0' '5' '0' '0' '6'
    (by decide) (by decide) (by decide) (by decide) (by decide) (by decide)
    (by decide) (by decide) (by decide) (by decide) (by decide) (by decide)
    (by decide) (by decide) (by decide) (by decide)

/-- C7 fails as stated: `re.match` anchors only at the start, so
`has_timestamp` is a prefix check and a line with trailing characters after
the second timestamp is still recognized. -/
theorem claim_C7_counterexample :
    has_timestamp
      (ofS "00:00:00,000 --> 00:00:01,000 with trailing text") = true := by
  decide

/-- C7 (amended): `has_timestamp` recognizes every line that STARTS with
two `HH:MM:SS,mmm` sides joined by the arrow, whatever follows: recognition
is a prefix check, not an exact-shape check (see the counterexample for a
recognized line with trailing text). -/
theorem claim_C7 (h1 h2 m1 m2 s1 s2 e1 e2 e3 H1 H2 M1 M2 S1 S2 f1 f2 f3 : Char)
    (t : Str)
    (dh1 : isDigitCh h1 = true) (dh2 : isDigitCh h2 = true)
    (dm1 : isDigitCh m1 = true) (dm2 : isDigitCh m2 = true)
    (ds1 : isDigitCh s1 = true) (ds2 : isDigitCh s2 = true)
    (de1 : isDigitCh e1 = true) (de2 : isDigitCh e2 = true)
    (de3 : isDigitCh e3 = true)
    (dH1 : isDigitCh H1 = true) (dH2 : isDigitCh H2 = true)
    (dM1 : isDigitCh M1 = true) (dM2 : isDigitCh M2 = true)
    (dS1 : isDigitCh S1 = true) (dS2 : isDigitCh S2 = true)
    (df1 : isDigitCh f1 = true) (df2 : isDigitCh f2 = true)
    (df3 : isDigitCh f3 = true) :
    has_timestamp
      ([h1, h2, ':', m1, m2, ':', s1, s2] ++ ',' :: [e1, e2, e3] ++
        arrowChars ++ [H1, H2, ':', M1, M2, ':', S1, S2] ++ ',' ::
        [f1, f2, f3] ++ t) = true := by
  simp [has_timestamp, ddColonN, ddColon, twoDigits, takeDigits, litM,
    arrowChars, dh1, dh2, dm1, dm2, ds1, ds2, de1, de2, de3,
    dH1, dH2, dM1, dM2, dS1, dS2, df1, df2, df3]

theorem claim_C7_witness :
    has_timestamp
      (['0', '0', ':', '0', '0', ':', '0', '0'] ++ ',' :: ['0', '0', '0'] ++
        arrowChars ++ ['0', '0', ':', '0', '0', ':', '0', '1'] ++ ',' ::
        ['0', '0', '0'] ++ ofS " extra") = true :=
  claim_C7 '0' '0' '0' '0' '0' '0' '0' '0' '0' '0' '0' '0' '0' '0' '1'
    '0' '0' '0' (ofS " extra")
    (by decide) (by decide) (by decide) (by decide) (by decide) (by decide)
    (by decide) (by decide) (by decide) (by decide) (by decide) (by decide)
    (by decide) (by decide) (by decide) (by decide) (by decide) (by decide)

/-- C8 fails as stated: `str.replace(".vtt", ".srt")` rewrites EVERY
occurrence, so a path holding `.vtt` twice is changed in two places, not
only at its suffix. -/
theorem claim_C8_counterexample :
    processOutputPath (ofS "a.vtt/b.vtt") = ofS "a.srt/b.srt" ∧
    ofS "a.srt/b.srt" ≠ ofS "a.vtt/b.srt" := by
  exact ⟨by decide, by decide⟩

/-- C8 (amended): when `.vtt` occurs only as the suffix, the output path of
`process` is the input path with that suffix replaced by `.srt` and nothing
else changed.  On paths with further `.vtt` occurrences every one is
rewritten (see the counterexample). -/
theorem claim_C8 (stem : Str) (h : containsSeq (ofS ".vtt") stem = false) :
    processOutputPath (stem ++ ofS ".vtt") = stem ++ ofS ".srt" :=
  processOutputPath_suffix h

theorem claim_C8_witness :
    processOutputPath (ofS "movie" ++ ofS ".vtt") = ofS "movie" ++ ofS ".srt" :=
  claim_C8 (ofS "movie") (by decide)

/-- C9 fails as stated for the second implementation: its retry opens the
base name without the requested encoding (the platform default is used) and
writes `str(data.encode(encoding_format))` — the textual repr of a bytes
object — rather than the transformed text itself. -/
theorem claim_C9_counterexample :
    write_file_2 (fun p => decide (p = ofS "/out/a.srt"))
      (ofS "/out/a.srt") (ofS "hello") (ofS "utf-8") =
      some ⟨ofS "a.srt", pyBytesRepr (ofS "hello"), defaultEncoding⟩ ∧
    pyBytesRepr (ofS "hello") ≠ ofS "hello" ∧
    defaultEncoding ≠ ofS "utf-8" := by
  exact ⟨by decide, by decide, by decide⟩

/-- C9 (amended): on a first-attempt failure both implementations retry
exactly once at the file's base name, and a second failure propagates; the
first implementation's retry persists the same text under the same
requested encoding, while the second implementation's retry persists the
bytes-object repr of the text under the platform default encoding. -/
theorem claim_C9 (fails : Str → Bool) (fn d e : Str) :
    (fails fn = true → fails (basename fn) = false →
      write_file fails fn d e = some ⟨basename fn, d, e⟩ ∧
      write_file_2 fails fn d e =
        some ⟨basename fn, pyBytesRepr d, defaultEncoding⟩) ∧
    (fails fn = true → fails (basename fn) = true →
      write_file fails fn d e = none ∧ write_file_2 fails fn d e = none) := by
  constructor
  · intro h1 h2
    constructor
    · simp [write_file, h1, h2]
    · simp [write_file_2, h1, h2]
  · intro h1 h2
    constructor
    · simp [write_file, h1, h2]
    · simp [write_file_2, h1, h2]

theorem claim_C9_witness :
    (write_file (fun p => decide (p = ofS "/out/a.srt"))
        (ofS "/out/a.srt") (ofS "hello") (ofS "utf-8") =
        some ⟨basename (ofS "/out/a.srt"), ofS "hello", ofS "utf-8"⟩ ∧
      write_file_2 (fun p => decide (p = ofS "/out/a.srt"))
        (ofS "/out/a.srt") (ofS "hello") (ofS "utf-8") =
        some ⟨basename (ofS "/out/a.srt"), pyBytesRepr (ofS "hello"),
          defaultEncoding⟩) ∧
    (write_file (fun _ => true)
        (ofS "/out/a.srt") (ofS "hello") (ofS "utf-8") = none ∧
      write_file_2 (fun _ => true)
        (ofS "/out/a.srt") (ofS "hello") (ofS "utf-8") = none) :=
  ⟨(claim_C9 (fun p => decide (p = ofS "/out/a.srt"))
      (ofS "/out/a.srt") (ofS "hello") (ofS "utf-8")).1 (by decide) (by decide),
   (claim_C9 (fun _ => true)
      (ofS "/out/a.srt") (ofS "hello") (ofS "utf-8")).2 rfl rfl⟩

end VttToSrt
